import Mathlib

/-!
# SAMRAI: a shallow embedding of the cascade partitioner group, the
startup/shutdown manager, GlobalId and the patch data factories

The first part follows `source/SAMRAI/mesh/CascadePartitionerGroup.h`; the
parts on `tbox`, `hier` and `pdat` follow the headers named in their sections.
C++ `double` quantities are read in exact arithmetic as rationals, C++ `int`
fields as integers (the constructors store the invalid value `-1` in them).
Pointers are optional values, the null pointer being `none`.

The method bodies of `makeSingleProcessGroup`, `makeCombinedGroup`,
`balanceConstituentHalves` and the classes `TransitLoad`,
`PartitioningParams` and `CascadePartitioner` are not part of the header; the
definitions standing for them are marked `Modelled from the spec:`.
-/

namespace SAMRAI
namespace mesh

/-- Where a group falls in the next larger group: `enum Position { Lower=0, Upper=1 }`. -/
inductive Position where
  | Lower
  | Upper
  deriving DecidableEq, Repr

/-- Modelled from the spec: `TransitLoad` (declared in `TransitLoad.h`, which is
missing) is a multiset of load items, each with a numeric weight; an item is
represented by its weight and the container by the list of its items. -/
abbrev TransitLoad := List ℚ

/-- Modelled from the spec: `TransitLoad::totalWeight()`, the sum of the item
weights. -/
def TransitLoad.totalWeight (l : TransitLoad) : ℚ := l.sum

/-- Modelled from the spec: `PartitioningParams` (declared in
`PartitioningParams.h`, which is missing), the immutable policy bundle with
fields idealLoad, loadToleranceAbs, loadToleranceRel, minCutFraction and
allowSplit. -/
structure PartitioningParams where
  idealLoad : ℚ
  loadToleranceAbs : ℚ
  loadToleranceRel : ℚ
  minCutFraction : ℚ
  allowSplit : Bool
  deriving DecidableEq

/-- Modelled from the spec: `capacityFor(nRanks) = idealLoad × nRanks`. -/
def PartitioningParams.capacityFor (p : PartitioningParams) (nRanks : Nat) : ℚ :=
  p.idealLoad * nRanks

/-- Modelled from the spec: `withinTolerance(w, cap)` iff
`|w − cap| ≤ loadToleranceAbs + loadToleranceRel × cap`. -/
def PartitioningParams.withinTolerance (p : PartitioningParams) (w cap : ℚ) : Bool :=
  decide (|w - cap| ≤ p.loadToleranceAbs + p.loadToleranceRel * cap)

/-- Modelled from the spec: the part of the driver `CascadePartitioner` (class
only forward-declared in the header) that a group reads through `d_common`:
the local rank, the number of ranks and the partitioning parameters. -/
structure CascadePartitioner where
  rank : Nat
  nRanks : Nat
  pparams : PartitioningParams
  deriving DecidableEq

/-- The data members of `class CascadePartitionerGroup`, in declaration order.
`d_our_half` points to the group of the previous cycle and is represented by
that group's cycle number; `d_our_work` and `d_far_work` point to either
`d_lower_work` or `d_upper_work` and are represented by the slot they select;
`d_comm` carries no data of its own in this embedding. -/
structure CascadePartitionerGroup where
  d_common : Option CascadePartitioner
  d_cycle_num : Int
  d_first_lower_rank : Int
  d_first_upper_rank : Int
  d_end_rank : Int
  d_contact : Int
  d_contact_may_supply : Bool
  d_our_half : Option Int
  d_our_position : Position
  d_lower_work : ℚ
  d_upper_work : ℚ
  d_lower_capacity : ℚ
  d_upper_capacity : ℚ
  d_our_work : Option Position
  d_far_work : Option Position
  d_our_half_may_supply : Bool
  d_far_half_may_supply : Bool
  d_local_load : Option TransitLoad
  d_shipment : Option TransitLoad
  deriving DecidableEq

/-- The members that the constructors' initializer lists leave out
(`d_common`, `d_contact_may_supply`, `d_lower_capacity`, `d_upper_capacity`):
their values after construction are whatever the storage held. -/
structure Uninitialized where
  d_common : Option CascadePartitioner
  d_contact_may_supply : Bool
  d_lower_capacity : ℚ
  d_upper_capacity : ℚ
  deriving DecidableEq

/-- The work total of the half at the given position. -/
def CascadePartitionerGroup.workAt (g : CascadePartitionerGroup) : Position → ℚ
  | Position.Lower => g.d_lower_work
  | Position.Upper => g.d_upper_work

/-- The position of the other half. -/
def Position.other : Position → Position
  | Position.Lower => Position.Upper
  | Position.Upper => Position.Lower

namespace CascadePartitionerGroup

/-- The default constructor `CascadePartitionerGroup()`. -/
def defaultCtor (u : Uninitialized) : CascadePartitionerGroup where
  d_common := u.d_common
  d_cycle_num := -1
  d_first_lower_rank := -1
  d_first_upper_rank := -1
  d_end_rank := -1
  d_contact := -1
  d_contact_may_supply := u.d_contact_may_supply
  d_our_half := none
  d_our_position := Position.Lower
  d_lower_work := 0
  d_upper_work := 0
  d_lower_capacity := u.d_lower_capacity
  d_upper_capacity := u.d_upper_capacity
  d_our_work := none
  d_far_work := none
  d_our_half_may_supply := true
  d_far_half_may_supply := true
  d_local_load := none
  d_shipment := none

/-- The copy constructor `CascadePartitionerGroup(const CascadePartitionerGroup &other)`:
"Copy constructor doesn't copy anything." Its initializer list is the one of
the default constructor and leaves out the same members. -/
def copyCtor (_other : CascadePartitionerGroup) (u : Uninitialized) :
    CascadePartitionerGroup where
  d_common := u.d_common
  d_cycle_num := -1
  d_first_lower_rank := -1
  d_first_upper_rank := -1
  d_end_rank := -1
  d_contact := -1
  d_contact_may_supply := u.d_contact_may_supply
  d_our_half := none
  d_our_position := Position.Lower
  d_lower_work := 0
  d_upper_work := 0
  d_lower_capacity := u.d_lower_capacity
  d_upper_capacity := u.d_upper_capacity
  d_our_work := none
  d_far_work := none
  d_our_half_may_supply := true
  d_far_half_may_supply := true
  d_local_load := none
  d_shipment := none

/-- Work of the group (combined work of its two halves). -/
def getCombinedWork (g : CascadePartitionerGroup) : ℚ :=
  g.d_lower_work + g.d_upper_work

/-- Surplus of lower half. -/
def lowerSurplus (g : CascadePartitionerGroup) : ℚ :=
  g.d_lower_work - g.d_lower_capacity

/-- Surplus of upper half. -/
def upperSurplus (g : CascadePartitionerGroup) : ℚ :=
  g.d_upper_work - g.d_upper_capacity

/-- Surplus of our half. -/
def ourSurplus (g : CascadePartitionerGroup) : ℚ :=
  if g.d_our_position = Position.Lower then g.lowerSurplus else g.upperSurplus

/-- Surplus of far half. -/
def farSurplus (g : CascadePartitionerGroup) : ℚ :=
  if g.d_our_position = Position.Lower then g.upperSurplus else g.lowerSurplus

/-- Record estimated work amount received by our half-group and that the
half-group may not become a supplier. -/
def recordWorkTakenByOurHalf (g : CascadePartitionerGroup) (amount : ℚ) :
    CascadePartitionerGroup :=
  let g1 :=
    if g.d_our_position = Position.Lower then
      { g with d_lower_work := g.d_lower_work + amount }
    else
      { g with d_upper_work := g.d_upper_work + amount }
  { g1 with d_our_half_may_supply := false }

/-- Record estimated work amount received by far half-group and that the
half-group may not become a supplier. -/
def recordWorkTakenByFarHalf (g : CascadePartitionerGroup) (amount : ℚ) :
    CascadePartitionerGroup :=
  let g1 :=
    if g.d_our_position = Position.Upper then
      { g with d_lower_work := g.d_lower_work + amount }
    else
      { g with d_upper_work := g.d_upper_work + amount }
  { g1 with d_far_half_may_supply := false }

/-- Modelled from the spec: the body of `makeSingleProcessGroup` is missing
(only its declaration is in the header). The spec gives: leaf constructor of a
cycle-zero group; lowerWork = localLoad.totalWeight(); upperWork = 0;
lower/upperCapacity = idealLoad; contact = self. The group of cycle 0 holds
the single local rank, so its range is `[rank, rank + 1)`; the local rank is
its lower half and the upper half is empty. Both may-supply flags start true.
Members the spec does not mention keep the value they have in `g`. -/
def makeSingleProcessGroup (g : CascadePartitionerGroup) (common_data : CascadePartitioner)
    (local_load : TransitLoad) : CascadePartitionerGroup :=
  { g with
    d_common := some common_data
    d_cycle_num := 0
    d_first_lower_rank := common_data.rank
    d_first_upper_rank := common_data.rank + 1
    d_end_rank := common_data.rank + 1
    d_contact := common_data.rank
    d_our_half := none
    d_our_position := Position.Lower
    d_lower_work := TransitLoad.totalWeight local_load
    d_upper_work := 0
    d_lower_capacity := common_data.pparams.idealLoad
    d_upper_capacity := common_data.pparams.idealLoad
    d_our_work := some Position.Lower
    d_far_work := some Position.Upper
    d_our_half_may_supply := true
    d_far_half_may_supply := true
    d_local_load := some local_load }

end CascadePartitionerGroup

/-- Modelled from the spec: the fixed-layout metadata message that the contact
sends during `makeCombinedGroup` (work-sum, extractable-estimate and the flag
mayStillSupply). -/
structure ContactMessage where
  workSum : ℚ
  extractableEstimate : ℚ
  mayStillSupply : Bool
  deriving DecidableEq

/-- Modelled from the spec: contact selection. In a combined group of `2^c`
ranks the contact of rank `r` is `r XOR 2^(c−1)`. -/
def contactOf (c r : Nat) : Nat := r ^^^ 2 ^ (c - 1)

/-- Modelled from the spec: first rank of the combined group of cycle `c` that
holds rank `r`. Groups of cycle `c` are the adjacent blocks of `2^c` ranks. -/
def groupFirstRank (c r : Nat) : Nat := r / 2 ^ c * 2 ^ c

namespace CascadePartitionerGroup

/-- Modelled from the spec: the body of `makeCombinedGroup` is missing (only
its declaration is in the header). The spec gives: combine `our_half` with its
sibling half; the group of cycle `c` has `2^c` ranks and halves of `2^(c−1)`
ranks; the position is determined from the local rank and the group ranges;
the contact is `r XOR 2^(c−1)`; our half's work estimate is copied into the
slot of our position and the far half's estimate is the one received from the
contact; capacities are idealLoad × halfSize; both may-supply flags are reset
to true. The message received from the contact is the argument `msg`. The
result is `none` when `our_half` has no driver data (null `d_common`). Members
the spec does not mention keep the value they have in `g`. -/
def makeCombinedGroup (g : CascadePartitionerGroup) (our_half : CascadePartitionerGroup)
    (msg : ContactMessage) : Option CascadePartitionerGroup :=
  match our_half.d_common with
  | none => none
  | some common =>
    let c : Nat := (our_half.d_cycle_num + 1).toNat
    let halfSize : Nat := 2 ^ (c - 1)
    let first : Nat := groupFirstRank c common.rank
    let pos : Position :=
      if common.rank < first + halfSize then Position.Lower else Position.Upper
    let ourWork : ℚ := our_half.getCombinedWork
    some { g with
      d_common := some common
      d_cycle_num := our_half.d_cycle_num + 1
      d_first_lower_rank := first
      d_first_upper_rank := first + halfSize
      d_end_rank := first + 2 ^ c
      d_contact := contactOf c common.rank
      d_our_half := some our_half.d_cycle_num
      d_our_position := pos
      d_lower_work := if pos = Position.Lower then ourWork else msg.workSum
      d_upper_work := if pos = Position.Lower then msg.workSum else ourWork
      d_lower_capacity := common.pparams.capacityFor halfSize
      d_upper_capacity := common.pparams.capacityFor halfSize
      d_our_work := some pos
      d_far_work := some (if pos = Position.Lower then Position.Upper else Position.Lower)
      d_our_half_may_supply := true
      d_far_half_may_supply := true }

end CascadePartitionerGroup

/-- The two supplying methods that `balanceConstituentHalves` relies on. The
header declares `supplyWorkFromOurHalf(work_requested, taker)` and
`supplyWorkFromFarHalf(work_requested)`, each returning the work supplied (or
an estimate); their bodies are missing, so they are taken as given. -/
structure SupplyMethods where
  supplyWorkFromOurHalf : ℚ → Int → ℚ
  supplyWorkFromFarHalf : ℚ → ℚ

/-- What one call of `balanceConstituentHalves` did: the group afterwards, and,
when a transfer was made, the half asked to supply, the amount requested from
it and the amount it reported as supplied. -/
structure BalanceOutcome where
  group : CascadePartitionerGroup
  supplier : Option Position
  requested : Option ℚ
  supplied : Option ℚ

namespace CascadePartitionerGroup

/-- The surplus of the half at the given position. -/
def surplusAt (g : CascadePartitionerGroup) : Position → ℚ
  | Position.Lower => g.lowerSurplus
  | Position.Upper => g.upperSurplus

/-- The capacity of the half at the given position. -/
def capacityAt (g : CascadePartitionerGroup) : Position → ℚ
  | Position.Lower => g.d_lower_capacity
  | Position.Upper => g.d_upper_capacity

/-- The overloaded half: the one with the larger surplus, the lower half when
the two surpluses are equal (the tie-break the spec mandates). -/
def overloadedHalf (g : CascadePartitionerGroup) : Position :=
  if g.upperSurplus ≤ g.lowerSurplus then Position.Lower else Position.Upper

/-- Subtract the amount supplied from the work total of the supplying half. -/
def removeWorkFrom (g : CascadePartitionerGroup) (p : Position) (amount : ℚ) :
    CascadePartitionerGroup :=
  match p with
  | Position.Lower => { g with d_lower_work := g.d_lower_work - amount }
  | Position.Upper => { g with d_upper_work := g.d_upper_work - amount }

/-- Set the may-supply flag of the half at the given position to false:
`d_our_half_may_supply` when that half is our half, `d_far_half_may_supply`
otherwise. -/
def clearMaySupply (g : CascadePartitionerGroup) (p : Position) : CascadePartitionerGroup :=
  if p = g.d_our_position then { g with d_our_half_may_supply := false }
  else { g with d_far_half_may_supply := false }

/-- Modelled from the spec: the body of `balanceConstituentHalves` is missing
(only its declaration is in the header). The spec gives: if
|lowerSurplus| ≤ tolerance, return (balanced); otherwise identify the
overloaded and underloaded halves, compute
ideal = min(overloadSurplus, underloadDeficit), call supplyWork(ideal, taker)
on the overloaded half, which returns the amount supplied, update
lower/upperWork by that amount (positive to taker, negative to supplier) and
set the supplier's "may supply" flag false. The tolerance test is
`withinTolerance(lowerWork, lowerCapacity)` of the partitioning parameters.
The amount received by the taker is recorded with the header's own
`recordWorkTakenByOurHalf` / `recordWorkTakenByFarHalf`, which also set the
may-supply flag of the half that took the work, so after a transfer neither
half may supply. The taker of work from our half is the contact. The result is
`none` when the group has no driver data (null `d_common`). -/
def balanceConstituentHalves (g : CascadePartitionerGroup) (m : SupplyMethods) :
    Option BalanceOutcome :=
  match g.d_common with
  | none => none
  | some common =>
    if common.pparams.withinTolerance g.d_lower_work g.d_lower_capacity then
      some { group := g, supplier := none, requested := none, supplied := none }
    else
      let over : Position := g.overloadedHalf
      let under : Position := over.other
      let ideal : ℚ := min (g.surplusAt over) (-(g.surplusAt under))
      if over = g.d_our_position then
        let work_supplied := m.supplyWorkFromOurHalf ideal g.d_contact
        some { group :=
                 ((g.removeWorkFrom over work_supplied).recordWorkTakenByFarHalf
                   work_supplied).clearMaySupply over,
               supplier := some over, requested := some ideal, supplied := some work_supplied }
      else
        let work_supplied := m.supplyWorkFromFarHalf ideal
        some { group :=
                 ((g.removeWorkFrom over work_supplied).recordWorkTakenByOurHalf
                   work_supplied).clearMaySupply over,
               supplier := some over, requested := some ideal, supplied := some work_supplied }

/-- The may-supply flag of the half at the given position. -/
def maySupplyAt (g : CascadePartitionerGroup) (p : Position) : Bool :=
  if p = g.d_our_position then g.d_our_half_may_supply else g.d_far_half_may_supply

end CascadePartitionerGroup

/-- The two bookkeeping operations of a group, as a command with its amount. -/
inductive RecordOp where
  | takenByOurHalf (amount : ℚ)
  | takenByFarHalf (amount : ℚ)
  deriving DecidableEq

/-- Run one bookkeeping operation on a group. -/
def RecordOp.apply (g : CascadePartitionerGroup) : RecordOp → CascadePartitionerGroup
  | .takenByOurHalf a => g.recordWorkTakenByOurHalf a
  | .takenByFarHalf a => g.recordWorkTakenByFarHalf a

/-- Run a sequence of bookkeeping operations, first to last. -/
def runRecordOps (g : CascadePartitionerGroup) (ops : List RecordOp) :
    CascadePartitionerGroup :=
  ops.foldl RecordOp.apply g

/-! ### The partitioning pass seen across all ranks

`CascadePartitioner.C` and `TransitLoad` are missing. The definitions below
follow the spec's description of one balancing pass: the state is the load
owned by each rank, and load moves only when the supplying rank of a group's
principal pair extracts a shipment from its own load and the taking rank adopts
it. -/

/-- Modelled from the spec: `adopt(other)` moves all items of `other` into the
receiver. -/
def TransitLoad.adopt (self other : TransitLoad) : TransitLoad := self ++ other

/-- Modelled from the spec: `split(item, w)` produces two items whose weights
sum to `item.weight`, the first of weight `w`, provided that both resulting
weights remain ≥ minCutFraction × capacity; otherwise the item is not split. -/
def splitItem (p : PartitioningParams) (item w : ℚ) : Option (ℚ × ℚ) :=
  if p.minCutFraction * p.idealLoad ≤ w ∧ p.minCutFraction * p.idealLoad ≤ item - w then
    some (w, item - w)
  else
    none

/-- Modelled from the spec: the greedy rule of `extractUpTo`, "repeatedly
remove the heaviest item that fits", run over the items from heaviest to
lightest. An item fits when taking it does not exceed what is left of the
target by more than the tolerance. The result is the items taken and the items
kept. -/
def greedyExtract (tol : ℚ) : List ℚ → ℚ → TransitLoad × TransitLoad
  | [], _ => ([], [])
  | w :: ws, deficit =>
    if w ≤ deficit + tol then
      let r := greedyExtract tol ws (deficit - w)
      (w :: r.1, r.2)
    else
      let r := greedyExtract tol ws deficit
      (r.1, w :: r.2)

/-- The smallest item of the list that exceeds `d`, if there is one. -/
def smallestAbove (d : ℚ) : List ℚ → Option ℚ
  | [] => none
  | w :: ws =>
    match smallestAbove d ws with
    | none => if d < w then some w else none
    | some v => if d < w ∧ w < v then some w else some v

/-- Modelled from the spec: `extractUpTo(target, allowSplit)`. Greedy
selection, heaviest item that fits first, without exceeding the target by more
than loadToleranceAbs + loadToleranceRel × target; if splitting is allowed and
the selection does not reach target − tolerance, the smallest kept item that
exceeds the remaining deficit is split, one item per call. The result is the
extracted load and the load that remains. -/
def extractUpTo (p : PartitioningParams) (load : TransitLoad) (target : ℚ)
    (allowSplit : Bool) : TransitLoad × TransitLoad :=
  let tol := p.loadToleranceAbs + p.loadToleranceRel * target
  let r := greedyExtract tol (load.insertionSort (fun a b => b ≤ a)) target
  let deficit := target - TransitLoad.totalWeight r.1
  if allowSplit = true ∧ tol < deficit then
    match smallestAbove deficit r.2 with
    | none => r
    | some item =>
      match splitItem p item deficit with
      | none => r
      | some pieces => (r.1 ++ [pieces.1], pieces.2 :: r.2.erase item)
  else
    r

/-- The sum over all ranks of the weight of the load each rank owns. -/
def totalOwned (loads : List TransitLoad) : ℚ :=
  (loads.map TransitLoad.totalWeight).sum

/-- The work held by the ranks `lo ≤ r < hi`; ranks beyond the last one are
phantom ranks with zero load. -/
def workInRange (loads : List TransitLoad) (lo hi : Nat) : ℚ :=
  ((List.range' lo (hi - lo)).map (fun r => TransitLoad.totalWeight (loads.getD r []))).sum

/-- The number of real ranks among `lo ≤ r < hi` when there are `nRanks`
ranks; phantom ranks have zero capacity. -/
def realRanks (nRanks lo hi : Nat) : Nat := min hi nRanks - min lo nRanks

/-- Modelled from the spec: one shipment. The supplying rank extracts up to
`target` from its load into a shipment, and the taking rank adopts the
shipment. Nothing is shipped from or to a phantom rank. -/
def ship (p : PartitioningParams) (loads : List TransitLoad) (supplier taker : Nat)
    (target : ℚ) : List TransitLoad :=
  if supplier < loads.length ∧ taker < loads.length then
    let r := extractUpTo p (loads.getD supplier []) target p.allowSplit
    let loads1 := loads.set supplier r.2
    loads1.set taker (TransitLoad.adopt (loads1.getD taker []) r.1)
  else
    loads

/-- Modelled from the spec: `balanceConstituentHalves` of the combined group of
cycle `c` whose first rank is `first`, seen across all ranks. If the lower
half is within tolerance the group is balanced. Otherwise the overloaded half
(the lower one when the surpluses are equal) supplies
min(overloadSurplus, underloadDeficit), and the principal pair, the ranks
`firstLower` and `firstUpper`, performs the shipment. -/
def balanceGroup (p : PartitioningParams) (c first : Nat) (loads : List TransitLoad) :
    List TransitLoad :=
  let firstUpper := first + 2 ^ (c - 1)
  let endRank := first + 2 ^ c
  let lowerWork := workInRange loads first firstUpper
  let upperWork := workInRange loads firstUpper endRank
  let lowerCapacity := p.capacityFor (realRanks loads.length first firstUpper)
  let upperCapacity := p.capacityFor (realRanks loads.length firstUpper endRank)
  if p.withinTolerance lowerWork lowerCapacity then
    loads
  else
    let lowerSurplus := lowerWork - lowerCapacity
    let upperSurplus := upperWork - upperCapacity
    if upperSurplus ≤ lowerSurplus then
      ship p loads first firstUpper (min lowerSurplus (-upperSurplus))
    else
      ship p loads firstUpper first (min upperSurplus (-lowerSurplus))

/-- Modelled from the spec: cycle `c` of the pass balances every combined group
of `2^c` ranks. -/
def runCycle (p : PartitioningParams) (loads : List TransitLoad) (c : Nat) :
    List TransitLoad :=
  (List.range ((loads.length + 2 ^ c - 1) / 2 ^ c)).foldl
    (fun acc k => balanceGroup p c (k * 2 ^ c) acc) loads

/-- Modelled from the spec: the number of cycles, ⌈log₂ P⌉. -/
def numCycles (nRanks : Nat) : Nat := Nat.clog 2 nRanks

/-- Modelled from the spec: one partitioning pass over the loads of all ranks,
cycles `1 … numCycles`. -/
def partition (p : PartitioningParams) (loads : List TransitLoad) : List TransitLoad :=
  (List.range' 1 (numCycles loads.length)).foldl (runCycle p) loads

/-! ### The TransitLoad wire format

`TransitLoad` and its serialization are missing from the sources. The
definitions below follow the spec's wire format. A weight on the wire is an
IEEE-754 double; it is represented by its 64-bit pattern, and the
floating-point operations the format relies on (the total weight of a load and
the distance in ULPs between two doubles) are taken as given. A byte is a
natural number below 256 and a buffer is a list of bytes. -/

/-- An IEEE-754 double as stored in memory: its 64-bit pattern. -/
abbrev Double := Fin (2 ^ 64)

/-- The double whose bit pattern is the low 64 bits of `n`. -/
def Double.ofBits (n : Nat) : Double := ⟨n % 2 ^ 64, Nat.mod_lt _ (Nat.two_pow_pos 64)⟩

/-- The floating-point operations used by the wire format, taken as given:
`sum` is the total weight of the doubles of a load as `totalWeight()` computes
it, and `ulpDistance` is the distance between two doubles in units in the last
place. -/
structure DoubleArith where
  sum : List Double → Double
  ulpDistance : Double → Double → Nat

/-- Modelled from the spec: a load item as it goes on the wire, "8-byte weight
(double), 4-byte payload length K, K bytes opaque payload". -/
structure LoadItem where
  weight : Double
  payload : List Nat
  deriving DecidableEq

/-- The `k` little-endian bytes of `n`. -/
def toLE : Nat → Nat → List Nat
  | 0, _ => []
  | k + 1, n => (n % 256) :: toLE k (n / 256)

/-- The number whose little-endian bytes are given. -/
def fromLE : List Nat → Nat
  | [] => 0
  | b :: bs => b + 256 * fromLE bs

/-- Modelled from the spec: the 4-byte magic `TLD1`. -/
def magic : List Nat := [84, 76, 68, 49]

/-- Modelled from the spec: the ways in which deserialization fails, "if magic
mismatches, lengths exceed buffer, or totalWeight disagrees with Σ weights by
more than 1 ULP per item". -/
inductive EncodingError where
  | magicMismatch
  | lengthExceedsBuffer
  | totalWeightMismatch
  deriving DecidableEq, Repr

/-- Modelled from the spec: one record, "8-byte weight (double), 4-byte payload
length K (little-endian unsigned), K bytes opaque payload". -/
def encodeItem (it : LoadItem) : List Nat :=
  toLE 8 it.weight.val ++ toLE 4 it.payload.length ++ it.payload

/-- Modelled from the spec: `serialize()`. "Header: 4-byte magic `TLD1`, 4-byte
item count N (little-endian unsigned), 8-byte total weight (IEEE-754 double).
N records ... No padding, no trailer." -/
def serialize (ops : DoubleArith) (x : List LoadItem) : List Nat :=
  magic ++ toLE 4 x.length ++ toLE 8 (ops.sum (x.map LoadItem.weight)).val
    ++ x.flatMap encodeItem

/-- Modelled from the spec: read `n` records from a buffer; fails when a record
or its payload exceeds the buffer. -/
def parseItems : Nat → List Nat → Except EncodingError (List LoadItem)
  | 0, _ => .ok []
  | n + 1, buf =>
    if buf.length < 12 then .error .lengthExceedsBuffer
    else
      let k := fromLE ((buf.drop 8).take 4)
      let rest := buf.drop 12
      if rest.length < k then .error .lengthExceedsBuffer
      else
        match parseItems n (rest.drop k) with
        | .error e => .error e
        | .ok items =>
          .ok ({ weight := Double.ofBits (fromLE (buf.take 8)), payload := rest.take k } :: items)

/-- Modelled from the spec: `deserialize(bytes)`. Fails if the magic
mismatches, if lengths exceed the buffer, or if the total weight of the header
disagrees with the sum of the weights by more than 1 ULP per item. -/
def deserialize (ops : DoubleArith) (buf : List Nat) : Except EncodingError (List LoadItem) :=
  if buf.take 4 ≠ magic then .error .magicMismatch
  else if buf.length < 16 then .error .lengthExceedsBuffer
  else
    let n := fromLE ((buf.drop 4).take 4)
    let total := Double.ofBits (fromLE ((buf.drop 8).take 8))
    match parseItems n (buf.drop 16) with
    | .error e => .error e
    | .ok items =>
      if n < ops.ulpDistance total (ops.sum (items.map LoadItem.weight)) then
        .error .totalWeightMismatch
      else .ok items

end mesh

/-! ## tbox: StartupShutdownManager

The embedding follows `source/SAMRAI/tbox/StartupShutdownManager.h`. The class
`Handler` is defined in the header. The static methods of the manager
(`registerHandler`, `startup`, `shutdown`, ...) are only declared there. -/

namespace tbox

/-- A callback function `void(*)(void)`, identified by the function pointed to.
A function pointer that may be null is an optional callback. -/
abbrev Callback := Nat

/-- The data members of `StartupShutdownManager::Handler`. The priority is an
`unsigned char`. -/
structure Handler where
  d_initialize : Option Callback
  d_startup : Option Callback
  d_shutdown : Option Callback
  d_finalize : Option Callback
  d_priority : Nat
  deriving DecidableEq, Repr

/-- The constructor `Handler(initialize, startup, shutdown, finalize, priority)`:
the initializer list stores the five arguments, then the body calls
`StartupShutdownManager::registerHandler(this)`. The body of `registerHandler`
is missing, so it is taken as given, acting on a state `σ` of the manager.
The result is the constructed handler and the state of the manager. -/
def Handler.ctor {σ : Type} (registerHandler : Handler → σ → σ)
    (initialize_fn startup shutdown finalize : Option Callback) (priority : Nat)
    (manager : σ) : Handler × σ :=
  let this : Handler :=
    { d_initialize := initialize_fn
      d_startup := startup
      d_shutdown := shutdown
      d_finalize := finalize
      d_priority := priority }
  (this, registerHandler this manager)

/-- Call initialize callback function. The result is the handler afterwards and
the callbacks invoked, in order. -/
def Handler.initialize (h : Handler) : Handler × List Callback :=
  match h.d_initialize with
  | some f => (h, [f])
  | none => (h, [])

/-- Call startup callback function. -/
def Handler.startup (h : Handler) : Handler × List Callback :=
  match h.d_startup with
  | some f => (h, [f])
  | none => (h, [])

/-- Call shutdown callback function. -/
def Handler.shutdown (h : Handler) : Handler × List Callback :=
  match h.d_shutdown with
  | some f => (h, [f])
  | none => (h, [])

/-- Call finalize callback function. -/
def Handler.finalize (h : Handler) : Handler × List Callback :=
  match h.d_finalize with
  | some f => (h, [f])
  | none => (h, [])

/-- Get the priority. The result is the handler afterwards and the value
returned. -/
def Handler.getPriority (h : Handler) : Handler × Nat :=
  (h, h.d_priority)

/-- Query if initialize function has been provided: `d_initialize != 0`. -/
def Handler.hasInitialize (h : Handler) : Handler × Bool :=
  (h, h.d_initialize.isSome)

/-- Query if startup function has been provided: `d_startup != 0`. -/
def Handler.hasStartup (h : Handler) : Handler × Bool :=
  (h, h.d_startup.isSome)

/-- Query if shutdown function has been provided: `d_shutdown != 0`. -/
def Handler.hasShutdown (h : Handler) : Handler × Bool :=
  (h, h.d_shutdown.isSome)

/-- Query if finalize function has been provided: `d_finalize != 0`. -/
def Handler.hasFinalize (h : Handler) : Handler × Bool :=
  (h, h.d_finalize.isSome)

/-- The methods of a handler other than its constructor. -/
inductive HandlerMethod where
  | callInitialize
  | callStartup
  | callShutdown
  | callFinalize
  | getPriority
  | hasInitialize
  | hasStartup
  | hasShutdown
  | hasFinalize
  deriving DecidableEq, Repr

/-- The handler after one call of the given method. -/
def Handler.afterCall (h : Handler) : HandlerMethod → Handler
  | .callInitialize => ( Handler.initialize h).1
  | .callStartup => h.startup.1
  | .callShutdown => h.shutdown.1
  | .callFinalize => h.finalize.1
  | .getPriority => h.getPriority.1
  | .hasInitialize => h.hasInitialize.1
  | .hasStartup => h.hasStartup.1
  | .hasShutdown => h.hasShutdown.1
  | .hasFinalize => h.hasFinalize.1

/-- The handler after a sequence of method calls. -/
def Handler.afterCalls (h : Handler) (ms : List HandlerMethod) : Handler :=
  ms.foldl Handler.afterCall h

namespace StartupShutdownManager

/-- Priorities for standard SAMRAI classes. -/
def priorityArenaManager : Nat := 10
/-- Priority of the reference counter. -/
def priorityReferenceCounter : Nat := 20
/-- Priority of the logger. -/
def priorityLogger : Nat := 25
/-- Priority of the list elements. -/
def priorityListElements : Nat := 30
/-- Priority of the list. -/
def priorityList : Nat := 30
/-- Priority of the input manager. -/
def priorityInputManager : Nat := 40
/-- Priority of the restart manager. -/
def priorityRestartManager : Nat := 50
/-- Priority of the variable database. -/
def priorityVariableDatabase : Nat := 60
/-- Priority of the statistician. -/
def priorityStatistician : Nat := 70
/-- Priority of the boundary lookup table. -/
def priorityBoundaryLookupTable : Nat := 80
/-- Priority of the hierarchy data operations manager. -/
def priorityHierarchyDataOpsManager : Nat := 90
/-- Priority of the timer manager. -/
def priorityTimerManger : Nat := 95
/-- Priority of the timers. -/
def priorityTimers : Nat := 98
/-- Priority of the variables. -/
def priorityVariables : Nat := 100

/-- The standard priority constants, in declaration order. -/
def standardPriorities : List Nat :=
  [priorityArenaManager, priorityReferenceCounter, priorityLogger, priorityListElements,
    priorityList, priorityInputManager, priorityRestartManager, priorityVariableDatabase,
    priorityStatistician, priorityBoundaryLookupTable, priorityHierarchyDataOpsManager,
    priorityTimerManger, priorityTimers, priorityVariables]

/-- Maximum value of handler priorities: the number of entries of
`s_manager_list`. -/
def s_number_of_priorities : Nat := 255

end StartupShutdownManager

/-- The static state of the manager that holds the registered handlers:
`s_manager_list`, the array of `s_number_of_priorities` lists of handlers, one
list per priority value. -/
structure StartupShutdownManager where
  s_manager_list : List (List Handler)
  deriving DecidableEq, Repr

namespace StartupShutdownManager

/-- Modelled from the spec: `setupSingleton` (body missing) sets up the manager
with no handler registered at any of the priorities. -/
def setupSingleton : StartupShutdownManager :=
  { s_manager_list := List.replicate s_number_of_priorities [] }

/-- Append a handler to the list at index `p` of an array of lists. -/
def appendAt : List (List Handler) → Nat → Handler → List (List Handler)
  | [], _, _ => []
  | l :: ls, 0, h => (l ++ [h]) :: ls
  | l :: ls, p + 1, h => l :: appendAt ls p h

/-- Modelled from the spec: `registerHandler` (body missing) stores the handler
in the list of its priority, obtained with `getPriority`, after the handlers
registered before it. A priority outside the array is an error. -/
def registerHandler (m : StartupShutdownManager) (handler : Handler) :
    Option StartupShutdownManager :=
  if handler.getPriority.2 < s_number_of_priorities then
    some { s_manager_list := appendAt m.s_manager_list handler.getPriority.2 handler }
  else
    none

/-- Register a sequence of handlers, first to last, starting from the manager
just set up. -/
def registerAll (m : StartupShutdownManager) : List Handler → Option StartupShutdownManager
  | [] => some m
  | h :: hs =>
    match m.registerHandler h with
    | none => none
    | some m1 => registerAll m1 hs

/-- Modelled from the spec: the handlers in the order in which `startup`
(body missing) calls them. "Lower numbers are started first, higher last (0
first, 254 last)." -/
def startupOrder (m : StartupShutdownManager) : List Handler :=
  m.s_manager_list.flatten

/-- Modelled from the spec: the handlers in the order in which `shutdown`
(body missing) calls them. "Order is inverted on shutdown (254 first, 0
last)." -/
def shutdownOrder (m : StartupShutdownManager) : List Handler :=
  m.s_manager_list.reverse.flatten

/-- Modelled from the spec: `startup` invokes the registered startup handlers;
the result is the sequence of callbacks invoked. -/
def startup (m : StartupShutdownManager) : List Callback :=
  m.startupOrder.flatMap (fun h => h.startup.2)

/-- Modelled from the spec: `shutdown` invokes the registered shutdown
handlers; the result is the sequence of callbacks invoked. -/
def shutdown (m : StartupShutdownManager) : List Callback :=
  m.shutdownOrder.flatMap (fun h => h.shutdown.2)

/-- Whether every handler stored in the list at index `i` of the array has
priority `k + i`. -/
def listsAt : Nat → List (List Handler) → Bool
  | _, [] => true
  | k, l :: ls => l.all (fun h => decide (h.d_priority = k)) && listsAt (k + 1) ls

end StartupShutdownManager

end tbox

/-! ## hier: GlobalId

The embedding follows `source/SAMRAI/hier/GlobalId.h`, which declares the
comparison operators and documents them; their bodies (`GlobalId.I`) and the
class `LocalId` are missing. -/

namespace hier

/-- Modelled from the spec: `LocalId` (declared in `LocalId.h`, which is
missing) is an integer identifier, compared by its value. -/
structure LocalId where
  d_value : Int
  deriving DecidableEq, Repr

/-- The data members of `GlobalId`: rank of the owner and local id on the owner
process. -/
structure GlobalId where
  d_owner_rank : Int
  d_local_id : LocalId
  deriving DecidableEq, Repr

namespace GlobalId

/-- Modelled from the spec: `operator ==` (body missing). The header gives:
"All comparison operators use the owner and rank. Compare the owner values
first; if they compare equal, compare the LocalId next." -/
def operator_eq (l r : GlobalId) : Bool :=
  decide (l.d_owner_rank = r.d_owner_rank) && decide (l.d_local_id.d_value = r.d_local_id.d_value)

/-- Modelled from the spec: `operator !=` (body missing), by the same rule. -/
def operator_ne (l r : GlobalId) : Bool :=
  decide (l.d_owner_rank ≠ r.d_owner_rank) || decide (l.d_local_id.d_value ≠ r.d_local_id.d_value)

/-- Modelled from the spec: `operator <` (body missing), by the same rule. -/
def operator_lt (l r : GlobalId) : Bool :=
  decide (l.d_owner_rank < r.d_owner_rank) ||
    (decide (l.d_owner_rank = r.d_owner_rank) &&
      decide (l.d_local_id.d_value < r.d_local_id.d_value))

/-- Modelled from the spec: `operator >` (body missing), by the same rule. -/
def operator_gt (l r : GlobalId) : Bool :=
  decide (l.d_owner_rank > r.d_owner_rank) ||
    (decide (l.d_owner_rank = r.d_owner_rank) &&
      decide (l.d_local_id.d_value > r.d_local_id.d_value))

/-- Modelled from the spec: `operator <=` (body missing), by the same rule. -/
def operator_le (l r : GlobalId) : Bool :=
  decide (l.d_owner_rank < r.d_owner_rank) ||
    (decide (l.d_owner_rank = r.d_owner_rank) &&
      decide (l.d_local_id.d_value ≤ r.d_local_id.d_value))

/-- Modelled from the spec: `operator >=` (body missing), by the same rule. -/
def operator_ge (l r : GlobalId) : Bool :=
  decide (l.d_owner_rank > r.d_owner_rank) ||
    (decide (l.d_owner_rank = r.d_owner_rank) &&
      decide (l.d_local_id.d_value ≥ r.d_local_id.d_value))

end GlobalId

end hier

/-! ## pdat: patch data factories and variables

The embedding follows `EdgeDataFactory.h`, `SideDataFactory.h` and
`OuterfaceVariable.h`, where `dataLivesOnPatchBorder` is defined inline. -/

namespace pdat

/-- An integer vector `hier::IntVector`, as the list of its entries. -/
abbrev IntVector := List Int

/-- The state of an `EdgeDataFactory<TYPE>`: the ghost cell width kept by the
base class `hier::PatchDataFactory`, the depth and the fine boundary flag. -/
structure EdgeDataFactory (TYPE : Type) where
  d_ghosts : IntVector
  d_depth : Int
  d_fine_boundary_represents_var : Bool

/-- Return true since the edge data index space extends beyond the interior of
patches. That is, edge data lives on patch borders. -/
def EdgeDataFactory.dataLivesOnPatchBorder {TYPE : Type} (_f : EdgeDataFactory TYPE) : Bool :=
  true

/-- The state of a `SideDataFactory<TYPE>`: the ghost cell width kept by the
base class, the depth, the fine boundary flag and the directions vector. -/
structure SideDataFactory (TYPE : Type) where
  d_ghosts : IntVector
  d_depth : Int
  d_fine_boundary_represents_var : Bool
  d_directions : IntVector

/-- Return true since the side data index space extends beyond the interior of
patches. That is, side data lives on patch borders. -/
def SideDataFactory.dataLivesOnPatchBorder {TYPE : Type} (_f : SideDataFactory TYPE) : Bool :=
  true

/-- The state of an `OuterfaceVariable<TYPE>`: dimension, name and depth, the
arguments of its constructor. -/
structure OuterfaceVariable (TYPE : Type) where
  dim : Nat
  name : String
  depth : Int

/-- Return true indicating that outerface data exists on the patch boundary. -/
def OuterfaceVariable.dataLivesOnPatchBorder {TYPE : Type} (_v : OuterfaceVariable TYPE) :
    Bool :=
  true

end pdat

end SAMRAI

open SAMRAI.mesh SAMRAI.tbox SAMRAI.hier SAMRAI.pdat

/-- Driver data used to instantiate the theorems below: local rank 0 of 2
ranks, ideal load 10, zero tolerances. -/
def sampleCommon : CascadePartitioner where
  rank := 0
  nRanks := 2
  pparams :=
    { idealLoad := 10, loadToleranceAbs := 0, loadToleranceRel := 0,
      minCutFraction := 0, allowSplit := true }

/-- A small group state used to instantiate the theorems below: a cycle-one
group over ranks 0 and 1, local rank in the lower half, all the work (30) on
the lower half and capacity 10 per half. -/
def sampleGroup : CascadePartitionerGroup where
  d_common := some sampleCommon
  d_cycle_num := 1
  d_first_lower_rank := 0
  d_first_upper_rank := 1
  d_end_rank := 2
  d_contact := 1
  d_contact_may_supply := true
  d_our_half := some 0
  d_our_position := Position.Lower
  d_lower_work := 30
  d_upper_work := 0
  d_lower_capacity := 10
  d_upper_capacity := 10
  d_our_work := some Position.Lower
  d_far_work := some Position.Upper
  d_our_half_may_supply := true
  d_far_half_may_supply := true
  d_local_load := none
  d_shipment := none

/-- Values standing for the storage of a group before construction. -/
def sampleStorage : Uninitialized where
  d_common := none
  d_contact_may_supply := false
  d_lower_capacity := 0
  d_upper_capacity := 0

/-- The leaf group of rank 0 holding three items of total weight 30. -/
def sampleLeaf : CascadePartitionerGroup :=
  (CascadePartitionerGroup.defaultCtor sampleStorage).makeSingleProcessGroup sampleCommon
    [15, 10, 5]

/-- The message by which the contact reports a far half without work. -/
def sampleMessage : ContactMessage where
  workSum := 0
  extractableEstimate := 0
  mayStillSupply := true

/-- The loads of four ranks, all the work on rank 0 in items of weight 7 and 4. -/
def sampleLoads : List TransitLoad := [[7, 7, 7, 7, 4, 4, 4], [], [], []]

/-- A handler with a startup and a shutdown callback only, of user priority 150,
as in the example of the header. -/
def sampleHandler : Handler where
  d_initialize := none
  d_startup := some 1
  d_shutdown := some 2
  d_finalize := none
  d_priority := 150

/-- Three handlers in registration order, of priorities 150, 10 and 150. -/
def sampleHandlers : List Handler :=
  [sampleHandler,
    { d_initialize := some 3, d_startup := some 4, d_shutdown := some 5, d_finalize := some 6,
      d_priority := 10 },
    { d_initialize := none, d_startup := some 7, d_shutdown := none, d_finalize := none,
      d_priority := 150 }]

/-- Arithmetic on bit patterns used to instantiate the wire format: the total is
the wrapping sum of the patterns and the distance is the difference of the
patterns. -/
def sampleArith : DoubleArith where
  sum := fun ws => ws.foldl (fun a b => a + b) (Double.ofBits 0)
  ulpDistance := fun a b => (a.val - b.val) + (b.val - a.val)

/-- A load of two items on the wire, the first with a payload of three bytes. -/
def sampleItems : List LoadItem :=
  [{ weight := Double.ofBits 3, payload := [1, 2, 3] },
    { weight := Double.ofBits 5, payload := [] }]

/-- Supplying methods that supply exactly what is requested. -/
def sampleSupply : SupplyMethods where
  supplyWorkFromOurHalf := fun work_requested _ => work_requested
  supplyWorkFromFarHalf := fun work_requested => work_requested

/-! ## Theorems -/

section Helpers

open CascadePartitionerGroup

theorem recordOp_our_flag (g : CascadePartitionerGroup) (op : RecordOp)
    (h : g.d_our_half_may_supply = false) :
    (RecordOp.apply g op).d_our_half_may_supply = false := by
  cases op with
  | takenByOurHalf a => simp [RecordOp.apply, recordWorkTakenByOurHalf]
  | takenByFarHalf a =>
    simp only [RecordOp.apply, recordWorkTakenByFarHalf]
    split <;> simpa using h

theorem recordOp_far_flag (g : CascadePartitionerGroup) (op : RecordOp)
    (h : g.d_far_half_may_supply = false) :
    (RecordOp.apply g op).d_far_half_may_supply = false := by
  cases op with
  | takenByFarHalf a => simp [RecordOp.apply, recordWorkTakenByFarHalf]
  | takenByOurHalf a =>
    simp only [RecordOp.apply, recordWorkTakenByOurHalf]
    split <;> simpa using h

theorem runRecordOps_our_flag (ops : List RecordOp) (g : CascadePartitionerGroup)
    (h : g.d_our_half_may_supply = false) :
    (runRecordOps g ops).d_our_half_may_supply = false := by
  induction ops generalizing g with
  | nil => simpa [runRecordOps] using h
  | cons op ops ih =>
    simpa [runRecordOps] using ih (RecordOp.apply g op) (recordOp_our_flag g op h)

theorem runRecordOps_far_flag (ops : List RecordOp) (g : CascadePartitionerGroup)
    (h : g.d_far_half_may_supply = false) :
    (runRecordOps g ops).d_far_half_may_supply = false := by
  induction ops generalizing g with
  | nil => simpa [runRecordOps] using h
  | cons op ops ih =>
    simpa [runRecordOps] using ih (RecordOp.apply g op) (recordOp_far_flag g op h)

/-- The outcome of `balanceConstituentHalves` on a group that is out of
tolerance, written out. -/
theorem balance_of_imbalanced (g : CascadePartitionerGroup) (m : SupplyMethods)
    (common : CascadePartitioner) (hc : g.d_common = some common)
    (himb : common.pparams.withinTolerance g.d_lower_work g.d_lower_capacity = false) :
    g.balanceConstituentHalves m =
      if g.overloadedHalf = g.d_our_position then
        some { group := ((g.removeWorkFrom g.overloadedHalf
                  (m.supplyWorkFromOurHalf
                    (min (g.surplusAt g.overloadedHalf) (-(g.surplusAt g.overloadedHalf.other)))
                    g.d_contact)).recordWorkTakenByFarHalf
                  (m.supplyWorkFromOurHalf
                    (min (g.surplusAt g.overloadedHalf) (-(g.surplusAt g.overloadedHalf.other)))
                    g.d_contact)).clearMaySupply g.overloadedHalf,
               supplier := some g.overloadedHalf,
               requested := some
                 (min (g.surplusAt g.overloadedHalf) (-(g.surplusAt g.overloadedHalf.other))),
               supplied := some (m.supplyWorkFromOurHalf
                    (min (g.surplusAt g.overloadedHalf) (-(g.surplusAt g.overloadedHalf.other)))
                    g.d_contact) }
      else
        some { group := ((g.removeWorkFrom g.overloadedHalf
                  (m.supplyWorkFromFarHalf
                    (min (g.surplusAt g.overloadedHalf)
                      (-(g.surplusAt g.overloadedHalf.other))))).recordWorkTakenByOurHalf
                  (m.supplyWorkFromFarHalf
                    (min (g.surplusAt g.overloadedHalf)
                      (-(g.surplusAt g.overloadedHalf.other))))).clearMaySupply g.overloadedHalf,
               supplier := some g.overloadedHalf,
               requested := some
                 (min (g.surplusAt g.overloadedHalf) (-(g.surplusAt g.overloadedHalf.other))),
               supplied := some (m.supplyWorkFromFarHalf
                    (min (g.surplusAt g.overloadedHalf)
                      (-(g.surplusAt g.overloadedHalf.other)))) } := by
  simp only [balanceConstituentHalves, hc, himb]
  rfl

/-- Bookkeeping of a transfer from half `s` to the other half: the effect of
`removeWorkFrom`, followed by the recording method for the taker and by
clearing the may-supply flag of the supplier. -/
theorem transfer_bookkeeping (g : CascadePartitionerGroup) (s : Position) (a : ℚ) :
    let g1 := if s = g.d_our_position
      then ((g.removeWorkFrom s a).recordWorkTakenByFarHalf a).clearMaySupply s
      else ((g.removeWorkFrom s a).recordWorkTakenByOurHalf a).clearMaySupply s
    g1.workAt s.other = g.workAt s.other + a ∧
    g1.workAt s = g.workAt s - a ∧
    g1.maySupplyAt s = false ∧
    g1.maySupplyAt s.other = false ∧
    g1.d_our_position = g.d_our_position := by
  cases s <;> cases h : g.d_our_position <;>
    simp [removeWorkFrom, recordWorkTakenByFarHalf, recordWorkTakenByOurHalf, clearMaySupply,
      workAt, maySupplyAt, Position.other, h]

theorem sample_out_of_tolerance :
    sampleCommon.pparams.withinTolerance sampleGroup.d_lower_work
      sampleGroup.d_lower_capacity = false := by
  simp only [PartitioningParams.withinTolerance, sampleCommon, sampleGroup]
  norm_num

theorem sample_overloaded : sampleGroup.overloadedHalf = Position.Lower := by
  simp only [overloadedHalf, upperSurplus, lowerSurplus, sampleGroup]
  norm_num

theorem xor_two_pow_div (r k : Nat) : (r ^^^ 2 ^ k) / 2 ^ (k + 1) = r / 2 ^ (k + 1) := by
  apply Nat.eq_of_testBit_eq
  intro i
  rw [← Nat.shiftRight_eq_div_pow, ← Nat.shiftRight_eq_div_pow, Nat.testBit_shiftRight,
    Nat.testBit_shiftRight, Nat.testBit_xor, Nat.testBit_two_pow]
  have : ¬ (k = k + 1 + i) := by omega
  simp [this]

theorem xor_two_pow_testBit (r k : Nat) : (r ^^^ 2 ^ k).testBit k = !r.testBit k := by
  rw [Nat.testBit_xor, Nat.testBit_two_pow_self]
  cases r.testBit k <;> rfl

/-- A rank is in the lower half of its block of `2^(k+1)` ranks exactly when
its bit `k` is clear. -/
theorem lower_half_iff_testBit (r k : Nat) :
    r < groupFirstRank (k + 1) r + 2 ^ k ↔ r.testBit k = false := by
  unfold groupFirstRank
  have h1 := Nat.div_add_mod r (2 ^ (k + 1))
  have h2 : r % 2 ^ (k + 1) = r % 2 ^ k + 2 ^ k * (r / 2 ^ k % 2) := Nat.mod_pow_succ
  have h3 : r % 2 ^ k < 2 ^ k := Nat.mod_lt _ (by positivity)
  have h4 : r / 2 ^ k % 2 < 2 := Nat.mod_lt _ (by decide)
  rw [Nat.testBit_to_div_mod]
  have hcomm : r / 2 ^ (k + 1) * 2 ^ (k + 1) = 2 ^ (k + 1) * (r / 2 ^ (k + 1)) :=
    Nat.mul_comm _ _
  rw [hcomm]
  generalize 2 ^ (k + 1) * (r / 2 ^ (k + 1)) = A at *
  generalize r % 2 ^ (k + 1) = B at *
  generalize r % 2 ^ k = C at *
  generalize 2 ^ k = D at *
  generalize r / D % 2 = E at *
  rcases Nat.lt_or_ge E 1 with h | h
  · have h0 : E = 0 := by omega
    subst h0
    simp at h2 ⊢
    omega
  · have h0 : E = 1 := by omega
    subst h0
    simp at h2 ⊢
    omega

theorem groupFirstRank_le (c r : Nat) : groupFirstRank c r ≤ r :=
  Nat.div_mul_le_self r (2 ^ c)

theorem lt_groupFirstRank_add (c r : Nat) : r < groupFirstRank c r + 2 ^ c :=
  Nat.lt_div_mul_add (by positivity)

theorem groupFirstRank_contactOf (k r : Nat) :
    groupFirstRank (k + 1) (contactOf (k + 1) r) = groupFirstRank (k + 1) r := by
  simp only [groupFirstRank, contactOf, Nat.add_sub_cancel, xor_two_pow_div]

theorem contactOf_contactOf (c r : Nat) : contactOf c (contactOf c r) = r := by
  simp only [contactOf, Nat.xor_cancel_right]

/-- The contact of a rank in the lower half is in the upper half of the same
block, and conversely. -/
theorem contactOf_lower_iff (k r : Nat) :
    contactOf (k + 1) r < groupFirstRank (k + 1) r + 2 ^ k ↔
      ¬ r < groupFirstRank (k + 1) r + 2 ^ k := by
  have h := lower_half_iff_testBit (contactOf (k + 1) r) k
  rw [groupFirstRank_contactOf] at h
  rw [h, lower_half_iff_testBit r k]
  simp only [contactOf, Nat.add_sub_cancel, xor_two_pow_testBit]
  cases r.testBit k <;> simp

/-- The members that `makeCombinedGroup` computes from the local rank and the
cycle number of the half. -/
theorem makeCombinedGroup_fields (g our_half : CascadePartitionerGroup) (msg : ContactMessage)
    (common : CascadePartitioner) (n : Nat)
    (hc : our_half.d_common = some common) (hcyc : our_half.d_cycle_num = n) :
    ∃ grp, g.makeCombinedGroup our_half msg = some grp ∧
      grp.d_cycle_num = our_half.d_cycle_num + 1 ∧
      grp.d_first_lower_rank = (groupFirstRank (n + 1) common.rank : Nat) ∧
      grp.d_first_upper_rank = (groupFirstRank (n + 1) common.rank + 2 ^ n : Nat) ∧
      grp.d_end_rank = (groupFirstRank (n + 1) common.rank + 2 ^ (n + 1) : Nat) ∧
      grp.d_contact = (contactOf (n + 1) common.rank : Nat) ∧
      grp.d_our_position =
        (if common.rank < groupFirstRank (n + 1) common.rank + 2 ^ n
          then Position.Lower else Position.Upper) := by
  have hn : (our_half.d_cycle_num + 1).toNat = n + 1 := by
    rw [hcyc]
    omega
  simp only [makeCombinedGroup, hc, hn, Nat.add_sub_cancel]
  refine ⟨_, rfl, ?_⟩
  simp

theorem greedyExtract_sum (tol : ℚ) (l : List ℚ) (d : ℚ) :
    (greedyExtract tol l d).1.sum + (greedyExtract tol l d).2.sum = l.sum := by
  induction l generalizing d with
  | nil => simp [greedyExtract]
  | cons w ws ih =>
    unfold greedyExtract
    split
    · have := ih (d - w)
      simp only [List.sum_cons]
      linarith
    · have := ih d
      simp only [List.sum_cons]
      linarith

theorem smallestAbove_mem (d : ℚ) (l : List ℚ) (v : ℚ) (h : smallestAbove d l = some v) :
    v ∈ l := by
  induction l generalizing v with
  | nil => simp [smallestAbove] at h
  | cons w ws ih =>
    unfold smallestAbove at h
    split at h
    · split at h
      · simp only [Option.some.injEq] at h
        simp [h]
      · simp at h
    · rename_i u hu
      split at h
      · simp only [Option.some.injEq] at h
        simp [h]
      · simp only [Option.some.injEq] at h
        subst h
        exact List.mem_cons_of_mem _ (ih _ hu)

theorem splitItem_sum (p : PartitioningParams) (item w : ℚ) (pieces : ℚ × ℚ)
    (h : splitItem p item w = some pieces) : pieces.1 + pieces.2 = item := by
  unfold splitItem at h
  split at h
  · simp only [Option.some.injEq] at h
    subst h
    simp
  · simp at h

theorem extractUpTo_sum (p : PartitioningParams) (load : TransitLoad) (target : ℚ)
    (allowSplit : Bool) :
    TransitLoad.totalWeight (extractUpTo p load target allowSplit).1
      + TransitLoad.totalWeight (extractUpTo p load target allowSplit).2
      = TransitLoad.totalWeight load := by
  have hsort : (load.insertionSort (fun a b => b ≤ a)).sum = load.sum :=
    (List.perm_insertionSort _ load).sum_eq
  have hg := greedyExtract_sum (p.loadToleranceAbs + p.loadToleranceRel * target)
    (load.insertionSort (fun a b => b ≤ a)) target
  rw [hsort] at hg
  unfold extractUpTo
  simp only [TransitLoad.totalWeight]
  split
  · split
    · exact hg
    · rename_i item hitem
      split
      · exact hg
      · rename_i pieces hp
        have hmem := smallestAbove_mem _ _ _ hitem
        have hsum := splitItem_sum _ _ _ _ hp
        have herase := List.sum_erase hmem
        simp only [List.sum_append, List.sum_cons, List.sum_nil]
        linarith
  · exact hg

theorem totalOwned_set (loads : List TransitLoad) (i : Nat) (x : TransitLoad)
    (h : i < loads.length) :
    totalOwned (loads.set i x)
      = totalOwned loads - TransitLoad.totalWeight (loads.getD i []) + TransitLoad.totalWeight x := by
  induction loads generalizing i with
  | nil => simp at h
  | cons l ls ih =>
    cases i with
    | zero =>
      simp only [totalOwned, List.set_cons_zero, List.map_cons, List.sum_cons,
        List.getD_cons_zero]
      ring
    | succ j =>
      have hj : j < ls.length := by simpa using h
      have := ih j hj
      simp only [totalOwned, List.set_cons_succ, List.map_cons, List.sum_cons,
        List.getD_cons_succ] at this ⊢
      linarith

theorem ship_total (p : PartitioningParams) (loads : List TransitLoad) (supplier taker : Nat)
    (target : ℚ) : totalOwned (ship p loads supplier taker target) = totalOwned loads := by
  unfold ship
  split
  · rename_i h
    have hx := extractUpTo_sum p (loads.getD supplier []) target p.allowSplit
    have h1 := totalOwned_set loads supplier
      (extractUpTo p (loads.getD supplier []) target p.allowSplit).2 h.1
    have h2 := totalOwned_set
      (loads.set supplier (extractUpTo p (loads.getD supplier []) target p.allowSplit).2) taker
      (TransitLoad.adopt
        ((loads.set supplier
          (extractUpTo p (loads.getD supplier []) target p.allowSplit).2).getD taker [])
        (extractUpTo p (loads.getD supplier []) target p.allowSplit).1)
      (by simpa using h.2)
    simp only [TransitLoad.adopt, TransitLoad.totalWeight, List.sum_append] at h2 hx h1 ⊢
    rw [h2, h1]
    linarith
  · rfl

theorem ship_length (p : PartitioningParams) (loads : List TransitLoad) (supplier taker : Nat)
    (target : ℚ) : (ship p loads supplier taker target).length = loads.length := by
  unfold ship
  split <;> simp

theorem balanceGroup_total (p : PartitioningParams) (c first : Nat) (loads : List TransitLoad) :
    totalOwned (balanceGroup p c first loads) = totalOwned loads ∧
    (balanceGroup p c first loads).length = loads.length := by
  unfold balanceGroup
  simp only
  split
  · exact ⟨rfl, rfl⟩
  · split
    · exact ⟨ship_total _ _ _ _ _, ship_length _ _ _ _ _⟩
    · exact ⟨ship_total _ _ _ _ _, ship_length _ _ _ _ _⟩

theorem foldl_balanceGroup_total (p : PartitioningParams) (c : Nat) (ks : List Nat)
    (loads : List TransitLoad) :
    totalOwned (ks.foldl (fun acc k => balanceGroup p c (k * 2 ^ c) acc) loads)
      = totalOwned loads ∧
    (ks.foldl (fun acc k => balanceGroup p c (k * 2 ^ c) acc) loads).length = loads.length := by
  induction ks generalizing loads with
  | nil => exact ⟨rfl, rfl⟩
  | cons k ks ih =>
    have h1 := balanceGroup_total p c (k * 2 ^ c) loads
    have h2 := ih (balanceGroup p c (k * 2 ^ c) loads)
    simp only [List.foldl_cons]
    exact ⟨h2.1.trans h1.1, h2.2.trans h1.2⟩

theorem runCycle_total (p : PartitioningParams) (loads : List TransitLoad) (c : Nat) :
    totalOwned (runCycle p loads c) = totalOwned loads ∧
    (runCycle p loads c).length = loads.length :=
  foldl_balanceGroup_total p c _ loads

theorem foldl_runCycle_total (p : PartitioningParams) (cs : List Nat)
    (loads : List TransitLoad) :
    totalOwned (cs.foldl (runCycle p) loads) = totalOwned loads ∧
    (cs.foldl (runCycle p) loads).length = loads.length := by
  induction cs generalizing loads with
  | nil => exact ⟨rfl, rfl⟩
  | cons c cs ih =>
    have h1 := runCycle_total p loads c
    have h2 := ih (runCycle p loads c)
    simp only [List.foldl_cons]
    exact ⟨h2.1.trans h1.1, h2.2.trans h1.2⟩

theorem partition_total (p : PartitioningParams) (loads : List TransitLoad) :
    totalOwned (partition p loads) = totalOwned loads ∧
    (partition p loads).length = loads.length :=
  foldl_runCycle_total p _ loads

theorem balance_of_balanced (g : CascadePartitionerGroup) (m : SupplyMethods)
    (common : CascadePartitioner) (hc : g.d_common = some common)
    (hbal : common.pparams.withinTolerance g.d_lower_work g.d_lower_capacity = true) :
    g.balanceConstituentHalves m =
      some { group := g, supplier := none, requested := none, supplied := none } := by
  simp only [CascadePartitionerGroup.balanceConstituentHalves, hc, hbal]
  rfl

/-- What `balanceConstituentHalves` does to the work totals and the may-supply
flags of a group that is out of tolerance. -/
theorem balance_transfer_effect (g : CascadePartitionerGroup) (m : SupplyMethods)
    (common : CascadePartitioner) (hc : g.d_common = some common)
    (himb : common.pparams.withinTolerance g.d_lower_work g.d_lower_capacity = false) :
    ∃ out a, g.balanceConstituentHalves m = some out ∧
      out.supplier = some g.overloadedHalf ∧ out.supplied = some a ∧
      out.group.workAt g.overloadedHalf.other = g.workAt g.overloadedHalf.other + a ∧
      out.group.workAt g.overloadedHalf = g.workAt g.overloadedHalf - a ∧
      out.group.maySupplyAt g.overloadedHalf = false ∧
      out.group.maySupplyAt g.overloadedHalf.other = false := by
  have hb := balance_of_imbalanced g m common hc himb
  by_cases hp : g.overloadedHalf = g.d_our_position
  · rw [if_pos hp] at hb
    have ht := transfer_bookkeeping g g.overloadedHalf
      (m.supplyWorkFromOurHalf
        (min (g.surplusAt g.overloadedHalf) (-(g.surplusAt g.overloadedHalf.other))) g.d_contact)
    simp only [if_pos hp] at ht
    exact ⟨_, _, hb, rfl, rfl, ht.1, ht.2.1, ht.2.2.1, ht.2.2.2.1⟩
  · rw [if_neg hp] at hb
    have ht := transfer_bookkeeping g g.overloadedHalf
      (m.supplyWorkFromFarHalf
        (min (g.surplusAt g.overloadedHalf) (-(g.surplusAt g.overloadedHalf.other))))
    simp only [if_neg hp] at ht
    exact ⟨_, _, hb, rfl, rfl, ht.1, ht.2.1, ht.2.2.1, ht.2.2.2.1⟩

end Helpers

section Wire

theorem toLE_length (k n : Nat) : (toLE k n).length = k := by
  induction k generalizing n with
  | zero => rfl
  | succ k ih => simp [toLE, ih]

theorem fromLE_toLE (k n : Nat) : fromLE (toLE k n) = n % 256 ^ k := by
  induction k generalizing n with
  | zero => simp [toLE, fromLE, Nat.mod_one]
  | succ k ih =>
    simp only [toLE, fromLE, ih]
    rw [pow_succ, Nat.mul_comm (256 ^ k) 256, Nat.mod_mul]

theorem ofBits_val (d : Double) : Double.ofBits (fromLE (toLE 8 d.val)) = d := by
  apply Fin.ext
  simp only [Double.ofBits, fromLE_toLE]
  have : (256 : Nat) ^ 8 = 2 ^ 64 := by norm_num
  rw [this, Nat.mod_mod, Nat.mod_eq_of_lt d.isLt]

theorem parseItems_encode (x : List LoadItem) (tail : List Nat)
    (hk : ∀ it ∈ x, it.payload.length < 2 ^ 32) :
    parseItems x.length (x.flatMap encodeItem ++ tail) = .ok x := by
  induction x with
  | nil => rfl
  | cons it x ih =>
    have hit : it.payload.length < 2 ^ 32 := hk it (by simp)
    have ih2 := ih (fun j hj => hk j (by simp [hj]))
    have hbuf : (it :: x).flatMap encodeItem ++ tail
        = toLE 8 it.weight.val ++ (toLE 4 it.payload.length
            ++ (it.payload ++ (x.flatMap encodeItem ++ tail))) := by
      simp [List.flatMap_cons, encodeItem, List.append_assoc]
    have h8 : (toLE 8 it.weight.val).length = 8 := toLE_length _ _
    have h4 : (toLE 4 it.payload.length).length = 4 := toLE_length _ _
    have hk4 : fromLE (toLE 4 it.payload.length) = it.payload.length := by
      rw [fromLE_toLE]
      have : (256 : Nat) ^ 4 = 2 ^ 32 := by norm_num
      rw [this, Nat.mod_eq_of_lt hit]
    have htake8 : ((it :: x).flatMap encodeItem ++ tail).take 8 = toLE 8 it.weight.val := by
      rw [hbuf]
      exact List.take_left' h8
    have hdrop8 : ((it :: x).flatMap encodeItem ++ tail).drop 8
        = toLE 4 it.payload.length ++ (it.payload ++ (x.flatMap encodeItem ++ tail)) := by
      rw [hbuf]
      exact List.drop_left' h8
    have hdrop12 : ((it :: x).flatMap encodeItem ++ tail).drop 12
        = it.payload ++ (x.flatMap encodeItem ++ tail) := by
      have : (12 : Nat) = 8 + 4 := rfl
      rw [this, ← List.drop_drop, hdrop8]
      exact List.drop_left' h4
    have hlen : ¬ ((it :: x).flatMap encodeItem ++ tail).length < 12 := by
      rw [hbuf]
      simp only [List.length_append, h8, h4]
      omega
    have hge : ¬ (it.payload ++ (x.flatMap encodeItem ++ tail)).length < it.payload.length := by
      simp only [List.length_append]
      omega
    simp only [List.length_cons, parseItems, hlen, if_false, hdrop8, hdrop12, htake8,
      List.take_left' h4, hk4, hge, List.drop_left' rfl, ih2, List.take_left' rfl, ofBits_val]

theorem deserialize_serialize (ops : DoubleArith) (x : List LoadItem)
    (hulp : ∀ d, ops.ulpDistance d d = 0)
    (hn : x.length < 2 ^ 32) (hk : ∀ it ∈ x, it.payload.length < 2 ^ 32) :
    deserialize ops (serialize ops x) = .ok x := by
  have hbuf : serialize ops x = magic ++ (toLE 4 x.length
      ++ (toLE 8 (ops.sum (x.map LoadItem.weight)).val ++ (x.flatMap encodeItem ++ []))) := by
    simp [serialize, List.append_assoc]
  have hm : magic.length = 4 := rfl
  have h4 : (toLE 4 x.length).length = 4 := toLE_length _ _
  have h8 : (toLE 8 (ops.sum (x.map LoadItem.weight)).val).length = 8 := toLE_length _ _
  have hn4 : fromLE (toLE 4 x.length) = x.length := by
    rw [fromLE_toLE]
    have : (256 : Nat) ^ 4 = 2 ^ 32 := by norm_num
    rw [this, Nat.mod_eq_of_lt hn]
  have htake4 : (serialize ops x).take 4 = magic := by
    rw [hbuf]
    exact List.take_left' hm
  have hdrop4 : (serialize ops x).drop 4 = toLE 4 x.length
      ++ (toLE 8 (ops.sum (x.map LoadItem.weight)).val ++ (x.flatMap encodeItem ++ [])) := by
    rw [hbuf]
    exact List.drop_left' hm
  have hdrop8 : (serialize ops x).drop 8
      = toLE 8 (ops.sum (x.map LoadItem.weight)).val ++ (x.flatMap encodeItem ++ []) := by
    have : (8 : Nat) = 4 + 4 := rfl
    rw [this, ← List.drop_drop, hdrop4]
    exact List.drop_left' h4
  have hdrop16 : (serialize ops x).drop 16 = x.flatMap encodeItem ++ [] := by
    have : (16 : Nat) = 8 + 8 := rfl
    rw [this, ← List.drop_drop, hdrop8]
    exact List.drop_left' h8
  have hlen : ¬ (serialize ops x).length < 16 := by
    rw [hbuf]
    simp only [List.length_append, hm, h4, h8]
    omega
  unfold deserialize
  simp only [htake4, ne_eq, not_true_eq_false, if_false, hlen, hdrop4, hdrop8, hdrop16,
    List.take_left' h4, List.take_left' h8, hn4, parseItems_encode x [] hk, ofBits_val, hulp]
  simp

end Wire

section Mgr
open StartupShutdownManager

theorem listsAt_replicate (k n : Nat) : listsAt k (List.replicate n []) = true := by
  induction n generalizing k with
  | zero => rfl
  | succ n ih => simp [List.replicate_succ, listsAt, ih]

theorem appendAt_length (L : List (List Handler)) (p : Nat) (h : Handler) :
    (appendAt L p h).length = L.length := by
  induction L generalizing p with
  | nil => rfl
  | cons l ls ih =>
    cases p with
    | zero => rfl
    | succ p => simp [appendAt, ih]

theorem listsAt_appendAt (L : List (List Handler)) (k p : Nat) (h : Handler)
    (hL : listsAt k L = true) (hp : h.d_priority = k + p) :
    listsAt k (appendAt L p h) = true := by
  induction L generalizing k p with
  | nil => rfl
  | cons l ls ih =>
    simp only [listsAt, Bool.and_eq_true] at hL
    cases p with
    | zero =>
      simp only [appendAt, listsAt, Bool.and_eq_true, List.all_append, List.all_cons,
        List.all_nil, Bool.and_true, decide_eq_true_eq]
      exact ⟨⟨hL.1, by simpa using hp⟩, hL.2⟩
    | succ p =>
      simp only [appendAt, listsAt, Bool.and_eq_true]
      exact ⟨hL.1, ih (k + 1) p hL.2 (by omega)⟩

theorem flatten_appendAt_perm (L : List (List Handler)) (p : Nat) (h : Handler)
    (hp : p < L.length) : (appendAt L p h).flatten.Perm (h :: L.flatten) := by
  induction L generalizing p with
  | nil => simp at hp
  | cons l ls ih =>
    cases p with
    | zero =>
      simp only [appendAt, List.flatten_cons, List.append_assoc, List.singleton_append]
      exact List.perm_middle
    | succ p =>
      have hp2 : p < ls.length := by simpa using hp
      simp only [appendAt, List.flatten_cons]
      exact ((ih p hp2).append_left l).trans List.perm_middle

theorem listsAt_ge (L : List (List Handler)) (k : Nat) (hL : listsAt k L = true) :
    ∀ h ∈ L.flatten, k ≤ h.d_priority := by
  induction L generalizing k with
  | nil => simp
  | cons l ls ih =>
    simp only [listsAt, Bool.and_eq_true, List.all_eq_true, decide_eq_true_eq] at hL
    intro h hh
    simp only [List.flatten_cons, List.mem_append] at hh
    rcases hh with hh | hh
    · exact (hL.1 h hh).ge
    · exact Nat.le_of_succ_le (ih (k + 1) hL.2 h hh)

theorem listsAt_ascending (L : List (List Handler)) (k : Nat) (hL : listsAt k L = true) :
    L.flatten.Pairwise (fun a b => a.d_priority ≤ b.d_priority) := by
  induction L generalizing k with
  | nil => simp
  | cons l ls ih =>
    have hge := listsAt_ge ls (k + 1)
    simp only [listsAt, Bool.and_eq_true, List.all_eq_true, decide_eq_true_eq] at hL
    simp only [List.flatten_cons, List.pairwise_append]
    refine ⟨?_, ih (k + 1) hL.2, ?_⟩
    · rw [List.pairwise_iff_forall_sublist]
      intro a b hab
      have ha := hL.1 a (hab.subset (by simp))
      have hb := hL.1 b (hab.subset (by simp))
      omega
    · intro a ha b hb
      have h1 := hL.1 a ha
      have h2 := hge hL.2 b hb
      omega

theorem listsAt_descending (L : List (List Handler)) (k : Nat) (hL : listsAt k L = true) :
    L.reverse.flatten.Pairwise (fun a b => b.d_priority ≤ a.d_priority) := by
  induction L generalizing k with
  | nil => simp
  | cons l ls ih =>
    have hge := listsAt_ge ls (k + 1)
    simp only [listsAt, Bool.and_eq_true, List.all_eq_true, decide_eq_true_eq] at hL
    simp only [List.reverse_cons, List.flatten_append, List.flatten_cons, List.flatten_nil,
      List.append_nil, List.pairwise_append]
    refine ⟨ih (k + 1) hL.2, ?_, ?_⟩
    · rw [List.pairwise_iff_forall_sublist]
      intro a b hab
      have ha := hL.1 a (hab.subset (by simp))
      have hb := hL.1 b (hab.subset (by simp))
      omega
    · intro a ha b hb
      have hmem : a ∈ ls.flatten := by
        simp only [List.mem_flatten, List.mem_reverse] at ha ⊢
        exact ha
      have h1 := hL.1 b hb
      have h2 := hge hL.2 a hmem
      omega

theorem reverse_flatten_perm (L : List (List Handler)) : L.reverse.flatten.Perm L.flatten := by
  induction L with
  | nil => simp
  | cons l ls ih =>
    simp only [List.reverse_cons, List.flatten_append, List.flatten_cons, List.flatten_nil,
      List.append_nil]
    exact (List.perm_append_comm).trans (ih.append_left l)

theorem registerAll_spec (hs : List Handler) (m : StartupShutdownManager)
    (hlen : m.s_manager_list.length = s_number_of_priorities)
    (hm : listsAt 0 m.s_manager_list = true)
    (hp : ∀ h ∈ hs, h.d_priority < s_number_of_priorities) :
    ∃ m2, registerAll m hs = some m2 ∧
      m2.s_manager_list.length = s_number_of_priorities ∧
      listsAt 0 m2.s_manager_list = true ∧
      m2.s_manager_list.flatten.Perm (m.s_manager_list.flatten ++ hs) := by
  induction hs generalizing m with
  | nil => exact ⟨m, rfl, hlen, hm, by simp⟩
  | cons h hs ih =>
    have hh : h.d_priority < s_number_of_priorities := hp h (by simp)
    have hstep : m.registerHandler h
        = some { s_manager_list := appendAt m.s_manager_list h.d_priority h } := by
      simp only [registerHandler, Handler.getPriority, if_pos hh]
    obtain ⟨m2, h1, h2, h3, h4⟩ := ih
      { s_manager_list := appendAt m.s_manager_list h.d_priority h }
      (by simp only [appendAt_length, hlen])
      (listsAt_appendAt _ 0 _ h hm (by omega))
      (fun x hx => hp x (by simp [hx]))
    refine ⟨m2, ?_, h2, h3, ?_⟩
    · simp only [registerAll, hstep, h1]
    · have hperm := flatten_appendAt_perm m.s_manager_list h.d_priority h (by omega)
      refine h4.trans ?_
      refine (hperm.append_right hs).trans ?_
      simp only [List.cons_append]
      exact List.perm_middle.symm

theorem startup_callbacks (hs : List Handler) :
    hs.flatMap (fun h => h.startup.2) = hs.filterMap (fun h => h.d_startup) := by
  induction hs with
  | nil => rfl
  | cons h hs ih =>
    rw [List.flatMap_cons, List.filterMap_cons, ih]
    cases hd : h.d_startup <;> simp [Handler.startup, hd]

theorem shutdown_callbacks (hs : List Handler) :
    hs.flatMap (fun h => h.shutdown.2) = hs.filterMap (fun h => h.d_shutdown) := by
  induction hs with
  | nil => rfl
  | cons h hs ih =>
    rw [List.flatMap_cons, List.filterMap_cons, ih]
    cases hd : h.d_shutdown <;> simp [Handler.shutdown, hd]

end Mgr

/-- C1 (monotone supply, I3). After `recordWorkTakenByOurHalf` the flag
`d_our_half_may_supply` is false, after `recordWorkTakenByFarHalf` the flag
`d_far_half_may_supply` is false, and a may-supply flag that is false stays
false under every sequence of the two operations. -/
theorem C1_monotone_supply (g : CascadePartitionerGroup) (amount : ℚ) (ops : List RecordOp) :
    (g.recordWorkTakenByOurHalf amount).d_our_half_may_supply = false ∧
    (g.recordWorkTakenByFarHalf amount).d_far_half_may_supply = false ∧
    (g.d_our_half_may_supply = false → (runRecordOps g ops).d_our_half_may_supply = false) ∧
    (g.d_far_half_may_supply = false → (runRecordOps g ops).d_far_half_may_supply = false) := by
  refine ⟨?_, ?_, runRecordOps_our_flag ops g, runRecordOps_far_flag ops g⟩
  · simp [CascadePartitionerGroup.recordWorkTakenByOurHalf]
  · simp [CascadePartitionerGroup.recordWorkTakenByFarHalf]

/-- C1 at a concrete input: a group whose two halves have both taken work keeps
both flags false through a further sequence of three recordings. -/
theorem C1_monotone_supply_witness :
    (runRecordOps ((sampleGroup.recordWorkTakenByOurHalf 5).recordWorkTakenByFarHalf 5)
        [RecordOp.takenByFarHalf 1, RecordOp.takenByOurHalf 2,
          RecordOp.takenByFarHalf 3]).d_our_half_may_supply = false ∧
    (runRecordOps ((sampleGroup.recordWorkTakenByOurHalf 5).recordWorkTakenByFarHalf 5)
        [RecordOp.takenByFarHalf 1, RecordOp.takenByOurHalf 2,
          RecordOp.takenByFarHalf 3]).d_far_half_may_supply = false :=
  ⟨(C1_monotone_supply _ 0 _).2.2.1 rfl, (C1_monotone_supply _ 0 _).2.2.2 rfl⟩

/-- C2 (work taken is credited to the half that took it). With
`d_our_position` Lower, `recordWorkTakenByOurHalf` adds the amount to
`d_lower_work` and `recordWorkTakenByFarHalf` adds it to `d_upper_work`; with
`d_our_position` Upper the two slots are exchanged. -/
theorem C2_work_credited_to_taker (g : CascadePartitionerGroup) (amount : ℚ) :
    match g.d_our_position with
    | Position.Lower =>
      (g.recordWorkTakenByOurHalf amount).d_lower_work = g.d_lower_work + amount ∧
      (g.recordWorkTakenByFarHalf amount).d_upper_work = g.d_upper_work + amount
    | Position.Upper =>
      (g.recordWorkTakenByOurHalf amount).d_upper_work = g.d_upper_work + amount ∧
      (g.recordWorkTakenByFarHalf amount).d_lower_work = g.d_lower_work + amount := by
  cases h : g.d_our_position <;>
    simp [CascadePartitionerGroup.recordWorkTakenByOurHalf,
      CascadePartitionerGroup.recordWorkTakenByFarHalf, h]

/-- C7 (surplus is work minus capacity, selected by position).
`lowerSurplus` and `upperSurplus` are work minus capacity of the lower and
upper half; `ourSurplus` and `farSurplus` are the lower and upper surplus when
`d_our_position` is Lower and the upper and lower surplus when it is Upper. -/
theorem C7_surplus_by_position (g : CascadePartitionerGroup) :
    g.lowerSurplus = g.d_lower_work - g.d_lower_capacity ∧
    g.upperSurplus = g.d_upper_work - g.d_upper_capacity ∧
    match g.d_our_position with
    | Position.Lower => g.ourSurplus = g.lowerSurplus ∧ g.farSurplus = g.upperSurplus
    | Position.Upper => g.ourSurplus = g.upperSurplus ∧ g.farSurplus = g.lowerSurplus := by
  refine ⟨rfl, rfl, ?_⟩
  cases h : g.d_our_position <;>
    simp [CascadePartitionerGroup.ourSurplus, CascadePartitionerGroup.farSurplus, h]

/-- C8 (supply eligibility starts true). A default-constructed group has both
may-supply flags true, both work totals 0, and cycle number, rank bounds and
contact equal to -1, whatever the uninitialized members hold. -/
theorem C8_default_constructed (u : Uninitialized) :
    (CascadePartitionerGroup.defaultCtor u).d_our_half_may_supply = true ∧
    (CascadePartitionerGroup.defaultCtor u).d_far_half_may_supply = true ∧
    (CascadePartitionerGroup.defaultCtor u).d_lower_work = 0 ∧
    (CascadePartitionerGroup.defaultCtor u).d_upper_work = 0 ∧
    (CascadePartitionerGroup.defaultCtor u).d_cycle_num = -1 ∧
    (CascadePartitionerGroup.defaultCtor u).d_first_lower_rank = -1 ∧
    (CascadePartitionerGroup.defaultCtor u).d_first_upper_rank = -1 ∧
    (CascadePartitionerGroup.defaultCtor u).d_end_rank = -1 ∧
    (CascadePartitionerGroup.defaultCtor u).d_contact = -1 :=
  ⟨rfl, rfl, rfl, rfl, rfl, rfl, rfl, rfl, rfl⟩

/-- C9 (leaf constructor). `makeSingleProcessGroup` yields a group of cycle 0
over the single local rank, with lower work the total weight of the local
load, upper work 0, both capacities the ideal load, and the local rank as
contact. -/
theorem C9_single_process_group (g : CascadePartitionerGroup) (common : CascadePartitioner)
    (local_load : TransitLoad) :
    (g.makeSingleProcessGroup common local_load).d_cycle_num = 0 ∧
    (g.makeSingleProcessGroup common local_load).d_first_lower_rank = common.rank ∧
    (g.makeSingleProcessGroup common local_load).d_end_rank
      - (g.makeSingleProcessGroup common local_load).d_first_lower_rank = 1 ∧
    (g.makeSingleProcessGroup common local_load).d_lower_work
      = TransitLoad.totalWeight local_load ∧
    (g.makeSingleProcessGroup common local_load).d_upper_work = 0 ∧
    (g.makeSingleProcessGroup common local_load).d_lower_capacity = common.pparams.idealLoad ∧
    (g.makeSingleProcessGroup common local_load).d_upper_capacity = common.pparams.idealLoad ∧
    (g.makeSingleProcessGroup common local_load).d_contact = common.rank := by
  simp [CascadePartitionerGroup.makeSingleProcessGroup]

/-- C3 (a transfer recorded by `balanceConstituentHalves`). When the group is
out of tolerance, `balanceConstituentHalves` returns with a transfer from the
overloaded half, the supplier, to the other half, the taker: the work of the
taker half increases by the amount supplied, the work of the supplier half
decreases by it, and the may-supply flag of the supplier half is set to false.
The recording method of the header also leaves the flag of the taker half
false. -/
theorem C3_transfer_recorded (g : CascadePartitionerGroup) (m : SupplyMethods)
    (common : CascadePartitioner) (hc : g.d_common = some common)
    (himb : common.pparams.withinTolerance g.d_lower_work g.d_lower_capacity = false) :
    ∃ out a, g.balanceConstituentHalves m = some out ∧
      out.supplier = some g.overloadedHalf ∧ out.supplied = some a ∧
      out.group.workAt g.overloadedHalf.other = g.workAt g.overloadedHalf.other + a ∧
      out.group.workAt g.overloadedHalf = g.workAt g.overloadedHalf - a ∧
      out.group.maySupplyAt g.overloadedHalf = false ∧
      out.group.maySupplyAt g.overloadedHalf.other = false :=
  balance_transfer_effect g m common hc himb

/-- C3 at the sample group: lower work 30 over capacity 10, upper work 0, local
rank in the lower half, both may-supply flags true before the call. -/
theorem C3_transfer_recorded_witness :
    ∃ out a, sampleGroup.balanceConstituentHalves sampleSupply = some out ∧
      out.supplier = some sampleGroup.overloadedHalf ∧ out.supplied = some a ∧
      out.group.workAt sampleGroup.overloadedHalf.other
        = sampleGroup.workAt sampleGroup.overloadedHalf.other + a ∧
      out.group.workAt sampleGroup.overloadedHalf
        = sampleGroup.workAt sampleGroup.overloadedHalf - a ∧
      out.group.maySupplyAt sampleGroup.overloadedHalf = false ∧
      out.group.maySupplyAt sampleGroup.overloadedHalf.other = false :=
  C3_transfer_recorded sampleGroup sampleSupply sampleCommon rfl sample_out_of_tolerance

/-- C10 (amount requested). For a group whose halves are out of tolerance,
`balanceConstituentHalves` asks the overloaded half (the one whose surplus is
not smaller) to supply the minimum of that half's surplus (work minus
capacity) and the other half's deficit (capacity minus work), and this is the
amount handed to the supplying method. -/
theorem C10_requested_amount (g : CascadePartitionerGroup) (m : SupplyMethods)
    (common : CascadePartitioner) (hc : g.d_common = some common)
    (himb : common.pparams.withinTolerance g.d_lower_work g.d_lower_capacity = false) :
    g.surplusAt g.overloadedHalf.other ≤ g.surplusAt g.overloadedHalf ∧
    ∃ out, g.balanceConstituentHalves m = some out ∧
      out.supplier = some g.overloadedHalf ∧
      out.requested = some
        (min (g.workAt g.overloadedHalf - g.capacityAt g.overloadedHalf)
          (g.capacityAt g.overloadedHalf.other - g.workAt g.overloadedHalf.other)) ∧
      out.supplied = some
        (if g.overloadedHalf = g.d_our_position then
          m.supplyWorkFromOurHalf
            (min (g.workAt g.overloadedHalf - g.capacityAt g.overloadedHalf)
              (g.capacityAt g.overloadedHalf.other - g.workAt g.overloadedHalf.other))
            g.d_contact
        else
          m.supplyWorkFromFarHalf
            (min (g.workAt g.overloadedHalf - g.capacityAt g.overloadedHalf)
              (g.capacityAt g.overloadedHalf.other - g.workAt g.overloadedHalf.other))) := by
  have hb := balance_of_imbalanced g m common hc himb
  have hs : ∀ p, g.surplusAt p = g.workAt p - g.capacityAt p := by
    intro p
    cases p <;> rfl
  have hd : ∀ p, -(g.surplusAt p) = g.capacityAt p - g.workAt p := by
    intro p
    rw [hs p]
    ring
  constructor
  · unfold CascadePartitionerGroup.overloadedHalf
    split
    · simpa [Position.other, CascadePartitionerGroup.surplusAt]
    · rename_i hlt
      simpa [Position.other, CascadePartitionerGroup.surplusAt] using le_of_lt (not_le.mp hlt)
  · rw [← hs, ← hd]
    by_cases hp : g.overloadedHalf = g.d_our_position
    · rw [if_pos hp] at hb
      exact ⟨_, hb, rfl, rfl, by rw [if_pos hp]⟩
    · rw [if_neg hp] at hb
      exact ⟨_, hb, rfl, rfl, by rw [if_neg hp]⟩

/-- C10 at the sample group: the lower half (surplus 20) is asked for
min(20, 10). -/
theorem C10_requested_amount_witness :
    sampleGroup.surplusAt sampleGroup.overloadedHalf.other
      ≤ sampleGroup.surplusAt sampleGroup.overloadedHalf ∧
    ∃ out, sampleGroup.balanceConstituentHalves sampleSupply = some out ∧
      out.supplier = some sampleGroup.overloadedHalf ∧
      out.requested = some
        (min (sampleGroup.workAt sampleGroup.overloadedHalf
            - sampleGroup.capacityAt sampleGroup.overloadedHalf)
          (sampleGroup.capacityAt sampleGroup.overloadedHalf.other
            - sampleGroup.workAt sampleGroup.overloadedHalf.other)) ∧
      out.supplied = some
        (if sampleGroup.overloadedHalf = sampleGroup.d_our_position then
          sampleSupply.supplyWorkFromOurHalf
            (min (sampleGroup.workAt sampleGroup.overloadedHalf
                - sampleGroup.capacityAt sampleGroup.overloadedHalf)
              (sampleGroup.capacityAt sampleGroup.overloadedHalf.other
                - sampleGroup.workAt sampleGroup.overloadedHalf.other))
            sampleGroup.d_contact
        else
          sampleSupply.supplyWorkFromFarHalf
            (min (sampleGroup.workAt sampleGroup.overloadedHalf
                - sampleGroup.capacityAt sampleGroup.overloadedHalf)
              (sampleGroup.capacityAt sampleGroup.overloadedHalf.other
                - sampleGroup.workAt sampleGroup.overloadedHalf.other))) :=
  C10_requested_amount sampleGroup sampleSupply sampleCommon rfl sample_out_of_tolerance

/-- C5 (contact selection is a symmetric pairing). For the combined group of
cycle `n + 1` built by `makeCombinedGroup` for local rank `r`, the contact is
`r XOR 2^n`; it lies in the half of the group that does not contain `r`; and
the combined group built for the contact has the same rank range, the other
position, and `r` as its contact. -/
theorem C5_contact_symmetric_pairing (g our_half : CascadePartitionerGroup)
    (msg : ContactMessage) (common : CascadePartitioner) (n : Nat)
    (hc : our_half.d_common = some common) (hcyc : our_half.d_cycle_num = n) :
    ∃ grp, g.makeCombinedGroup our_half msg = some grp ∧
      grp.d_contact = ((common.rank ^^^ 2 ^ n : Nat) : Int) ∧
      (match grp.d_our_position with
        | Position.Lower =>
          (common.rank : Int) < grp.d_first_upper_rank ∧
          grp.d_first_upper_rank ≤ grp.d_contact ∧ grp.d_contact < grp.d_end_rank
        | Position.Upper =>
          grp.d_first_upper_rank ≤ (common.rank : Int) ∧
          grp.d_first_lower_rank ≤ grp.d_contact ∧ grp.d_contact < grp.d_first_upper_rank) ∧
      ∀ (g2 half2 : CascadePartitionerGroup) (msg2 : ContactMessage)
        (common2 : CascadePartitioner),
        half2.d_common = some common2 → (common2.rank : Int) = grp.d_contact →
        half2.d_cycle_num = n →
        ∃ grp2, g2.makeCombinedGroup half2 msg2 = some grp2 ∧
          grp2.d_contact = (common.rank : Int) ∧
          grp2.d_first_lower_rank = grp.d_first_lower_rank ∧
          grp2.d_end_rank = grp.d_end_rank ∧
          grp2.d_our_position = grp.d_our_position.other := by
  obtain ⟨grp, hmk, -, hfl, hfu, hend, hct, hpos⟩ :=
    makeCombinedGroup_fields g our_half msg common n hc hcyc
  have hle := groupFirstRank_le (n + 1) (contactOf (n + 1) common.rank)
  have hlt := lt_groupFirstRank_add (n + 1) (contactOf (n + 1) common.rank)
  rw [groupFirstRank_contactOf] at hle hlt
  have hflip := contactOf_lower_iff n common.rank
  refine ⟨grp, hmk, ?_, ?_, ?_⟩
  · rw [hct]
    simp [contactOf]
  · rw [hpos, hfl, hfu, hend, hct]
    split
    · rename_i hlow
      have hlow2 : common.rank < groupFirstRank (n + 1) common.rank + 2 ^ n := by
        by_contra hcon
        rw [if_neg hcon] at hlow
        exact Position.noConfusion hlow
      have : ¬ contactOf (n + 1) common.rank < groupFirstRank (n + 1) common.rank + 2 ^ n :=
        fun h => (hflip.mp h) hlow2
      refine ⟨?_, ?_, ?_⟩
      · exact_mod_cast hlow2
      · exact_mod_cast not_lt.mp this
      · exact_mod_cast hlt
    · rename_i hup
      have hup2 : ¬ common.rank < groupFirstRank (n + 1) common.rank + 2 ^ n := by
        intro hcon
        rw [if_pos hcon] at hup
        exact Position.noConfusion hup
      refine ⟨?_, ?_, ?_⟩
      · exact_mod_cast not_lt.mp hup2
      · exact_mod_cast hle
      · exact_mod_cast hflip.mpr hup2
  · intro g2 half2 msg2 common2 hc2 hrank hcyc2
    obtain ⟨grp2, hmk2, -, hfl2, -, hend2, hct2, hpos2⟩ :=
      makeCombinedGroup_fields g2 half2 msg2 common2 n hc2 hcyc2
    have hr : common2.rank = contactOf (n + 1) common.rank := by
      rw [hct] at hrank
      exact_mod_cast hrank
    rw [hr] at hfl2 hend2 hct2 hpos2
    rw [groupFirstRank_contactOf] at hfl2 hend2 hpos2
    rw [contactOf_contactOf] at hct2
    refine ⟨grp2, hmk2, hct2, ?_, ?_, ?_⟩
    · rw [hfl2, hfl]
    · rw [hend2, hend]
    · rw [hpos2, hpos]
      by_cases hlow : common.rank < groupFirstRank (n + 1) common.rank + 2 ^ n
      · have : ¬ contactOf (n + 1) common.rank < groupFirstRank (n + 1) common.rank + 2 ^ n :=
          fun h => (hflip.mp h) hlow
        rw [if_pos hlow, if_neg this]
        rfl
      · rw [if_neg hlow, if_pos (hflip.mpr hlow)]
        rfl

/-- C5 at a concrete input: the cycle-one group built from the leaf of rank 0
has contact `0 XOR 2^0`. -/
theorem C5_contact_symmetric_pairing_witness :
    ∃ grp, (CascadePartitionerGroup.defaultCtor sampleStorage).makeCombinedGroup
        sampleLeaf sampleMessage = some grp ∧
      grp.d_contact = ((sampleCommon.rank ^^^ 2 ^ 0 : Nat) : Int) :=
  let ⟨grp, h1, h2, _⟩ := C5_contact_symmetric_pairing
    (CascadePartitionerGroup.defaultCtor sampleStorage) sampleLeaf sampleMessage sampleCommon 0
    rfl rfl
  ⟨grp, h1, h2⟩

/-- C6 (group shape). The leaf group of cycle 0 holds `2^0` ranks. A combined
group built by `makeCombinedGroup` from a half of cycle `n` has cycle number
`n + 1`, holds `2^(n+1)` ranks, each of its halves holds `2^n` ranks, and the
local rank lies inside `[d_first_lower_rank, d_end_rank)`. -/
theorem C6_group_shape (g our_half : CascadePartitionerGroup)
    (msg : ContactMessage) (common : CascadePartitioner) (n : Nat)
    (hc : our_half.d_common = some common) (hcyc : our_half.d_cycle_num = n) :
    (∀ (g0 : CascadePartitionerGroup) (local_load : TransitLoad),
      (g0.makeSingleProcessGroup common local_load).d_cycle_num = 0 ∧
      (g0.makeSingleProcessGroup common local_load).d_end_rank
        - (g0.makeSingleProcessGroup common local_load).d_first_lower_rank = 2 ^ 0) ∧
    ∃ grp, g.makeCombinedGroup our_half msg = some grp ∧
      grp.d_cycle_num = our_half.d_cycle_num + 1 ∧
      grp.d_end_rank - grp.d_first_lower_rank = 2 ^ (grp.d_cycle_num.toNat) ∧
      grp.d_first_upper_rank - grp.d_first_lower_rank = 2 ^ (grp.d_cycle_num.toNat - 1) ∧
      grp.d_end_rank - grp.d_first_upper_rank = 2 ^ (grp.d_cycle_num.toNat - 1) ∧
      grp.d_first_lower_rank ≤ (common.rank : Int) ∧ (common.rank : Int) < grp.d_end_rank := by
  constructor
  · intro g0 local_load
    simp [CascadePartitionerGroup.makeSingleProcessGroup]
  · obtain ⟨grp, hmk, hcn, hfl, hfu, hend, -, -⟩ :=
      makeCombinedGroup_fields g our_half msg common n hc hcyc
    have hle := groupFirstRank_le (n + 1) common.rank
    have hlt := lt_groupFirstRank_add (n + 1) common.rank
    have hcn2 : grp.d_cycle_num.toNat = n + 1 := by
      rw [hcn, hcyc]
      omega
    refine ⟨grp, hmk, hcn, ?_, ?_, ?_, ?_, ?_⟩
    · rw [hcn2, hend, hfl]
      push_cast
      ring
    · rw [hcn2, hfu, hfl, Nat.add_sub_cancel]
      push_cast
      ring
    · rw [hcn2, hend, hfu, Nat.add_sub_cancel]
      push_cast
      ring
    · rw [hfl]
      exact_mod_cast hle
    · rw [hend]
      exact_mod_cast hlt

/-- C6 at a concrete input: the cycle-one group built from the leaf of rank 0
holds two ranks. -/
theorem C6_group_shape_witness :
    ∃ grp, (CascadePartitionerGroup.defaultCtor sampleStorage).makeCombinedGroup
        sampleLeaf sampleMessage = some grp ∧
      grp.d_cycle_num = sampleLeaf.d_cycle_num + 1 ∧
      grp.d_end_rank - grp.d_first_lower_rank = 2 ^ (grp.d_cycle_num.toNat) :=
  let ⟨grp, h1, h2, h3, _⟩ := (C6_group_shape
    (CascadePartitionerGroup.defaultCtor sampleStorage) sampleLeaf sampleMessage sampleCommon 0
    rfl rfl).2
  ⟨grp, h1, h2, h3⟩

/-- C4 (conservation, I1). For every number of ranks and every input
distribution, a partitioning pass keeps the number of ranks and the sum over
all ranks of the owned load weight; and `balanceConstituentHalves` returns with
the group's combined work `getCombinedWork()` unchanged. -/
theorem C4_conservation (p : PartitioningParams) (loads : List TransitLoad)
    (g : CascadePartitionerGroup) (m : SupplyMethods) (common : CascadePartitioner)
    (hc : g.d_common = some common) :
    (partition p loads).length = loads.length ∧
    totalOwned (partition p loads) = totalOwned loads ∧
    ∃ out, g.balanceConstituentHalves m = some out ∧
      out.group.getCombinedWork = g.getCombinedWork := by
  refine ⟨(partition_total p loads).2, (partition_total p loads).1, ?_⟩
  cases hb : common.pparams.withinTolerance g.d_lower_work g.d_lower_capacity with
  | true => exact ⟨_, balance_of_balanced g m common hc hb, rfl⟩
  | false =>
    have hw : ∀ (g1 : CascadePartitionerGroup) (s : Position),
        g1.getCombinedWork = g1.workAt s + g1.workAt s.other := by
      intro g1 s
      cases s
      · rfl
      · exact add_comm _ _
    obtain ⟨out, a, hout, -, -, h1, h2, -, -⟩ := balance_transfer_effect g m common hc hb
    refine ⟨out, hout, ?_⟩
    rw [hw out.group g.overloadedHalf, hw g g.overloadedHalf, h1, h2]
    ring

/-- C4 at a concrete input: four ranks with all the work (40) on rank 0, and
the sample group. -/
theorem C4_conservation_witness :
    (partition sampleCommon.pparams sampleLoads).length = sampleLoads.length ∧
    totalOwned (partition sampleCommon.pparams sampleLoads) = totalOwned sampleLoads ∧
    ∃ out, sampleGroup.balanceConstituentHalves sampleSupply = some out ∧
      out.group.getCombinedWork = sampleGroup.getCombinedWork :=
  C4_conservation sampleCommon.pparams sampleLoads sampleGroup sampleSupply sampleCommon rfl

/-- C12 (the copy constructor copies nothing). For every source group, the
copy is the group that the default constructor builds in the same storage:
cycle number, rank bounds and contact -1, works 0, both may-supply flags true,
null half, work and load pointers; the result does not depend on the source. -/
theorem C12_copy_copies_nothing (other other2 : CascadePartitionerGroup) (u : Uninitialized) :
    CascadePartitionerGroup.copyCtor other u = CascadePartitionerGroup.defaultCtor u ∧
    CascadePartitionerGroup.copyCtor other u = CascadePartitionerGroup.copyCtor other2 u ∧
    (CascadePartitionerGroup.copyCtor other u).d_cycle_num = -1 ∧
    (CascadePartitionerGroup.copyCtor other u).d_first_lower_rank = -1 ∧
    (CascadePartitionerGroup.copyCtor other u).d_first_upper_rank = -1 ∧
    (CascadePartitionerGroup.copyCtor other u).d_end_rank = -1 ∧
    (CascadePartitionerGroup.copyCtor other u).d_contact = -1 ∧
    (CascadePartitionerGroup.copyCtor other u).d_lower_work = 0 ∧
    (CascadePartitionerGroup.copyCtor other u).d_upper_work = 0 ∧
    (CascadePartitionerGroup.copyCtor other u).d_our_half_may_supply = true ∧
    (CascadePartitionerGroup.copyCtor other u).d_far_half_may_supply = true ∧
    (CascadePartitionerGroup.copyCtor other u).d_our_half = none ∧
    (CascadePartitionerGroup.copyCtor other u).d_our_work = none ∧
    (CascadePartitionerGroup.copyCtor other u).d_far_work = none ∧
    (CascadePartitionerGroup.copyCtor other u).d_local_load = none ∧
    (CascadePartitionerGroup.copyCtor other u).d_shipment = none :=
  ⟨rfl, rfl, rfl, rfl, rfl, rfl, rfl, rfl, rfl, rfl, rfl, rfl, rfl, rfl, rfl, rfl⟩

/-- C13 (has-queries). For a handler built by the constructor, each of
`hasInitialize`, `hasStartup`, `hasShutdown` and `hasFinalize` returns true if
and only if the callback passed for that phase was not null. -/
theorem C13_has_queries {σ : Type} (registerHandler : Handler → σ → σ)
    (initialize_fn startup shutdown finalize : Option Callback) (priority : Nat) (manager : σ) :
    (( Handler.ctor registerHandler initialize_fn startup shutdown finalize priority
        manager).1.hasInitialize.2 = true ↔ initialize_fn ≠ none) ∧
    (( Handler.ctor registerHandler initialize_fn startup shutdown finalize priority
        manager).1.hasStartup.2 = true ↔ startup ≠ none) ∧
    (( Handler.ctor registerHandler initialize_fn startup shutdown finalize priority
        manager).1.hasShutdown.2 = true ↔ shutdown ≠ none) ∧
    (( Handler.ctor registerHandler initialize_fn startup shutdown finalize priority
        manager).1.hasFinalize.2 = true ↔ finalize ≠ none) := by
  simp [Handler.ctor, Handler.hasInitialize, Handler.hasStartup, Handler.hasShutdown,
    Handler.hasFinalize, Option.isSome_iff_ne_none]

/-- C14 (phase methods). For a handler built by the constructor, each phase
method invokes exactly the callback supplied for its phase, once, and no other
callback; when that callback is null it invokes nothing. In both cases the
call returns. -/
theorem C14_phase_methods {σ : Type} (registerHandler : Handler → σ → σ)
    (initialize_fn startup shutdown finalize : Option Callback) (priority : Nat) (manager : σ) :
    ( Handler.initialize ( Handler.ctor registerHandler initialize_fn startup shutdown finalize
        priority manager).1).2 = initialize_fn.toList ∧
    ( Handler.ctor registerHandler initialize_fn startup shutdown finalize priority
        manager).1.startup.2 = startup.toList ∧
    ( Handler.ctor registerHandler initialize_fn startup shutdown finalize priority
        manager).1.shutdown.2 = shutdown.toList ∧
    ( Handler.ctor registerHandler initialize_fn startup shutdown finalize priority
        manager).1.finalize.2 = finalize.toList := by
  refine ⟨?_, ?_, ?_, ?_⟩
  · cases initialize_fn <;> rfl
  · cases startup <;> rfl
  · cases shutdown <;> rfl
  · cases finalize <;> rfl

/-- C15 (registration on construction). Constructing a handler calls
`registerHandler` exactly once, on the handler being constructed, whose four
callbacks and priority are already stored: the manager afterwards is the result
of that one call, and when the manager records the handlers it is given, the
record grows by this handler alone. -/
theorem C15_registers_on_construction {σ : Type} (registerHandler : Handler → σ → σ)
    (initialize_fn startup shutdown finalize : Option Callback) (priority : Nat) (manager : σ)
    (registered : List Handler) :
    ( Handler.ctor registerHandler initialize_fn startup shutdown finalize priority manager).2
      = registerHandler
          { d_initialize := initialize_fn, d_startup := startup, d_shutdown := shutdown,
            d_finalize := finalize, d_priority := priority } manager ∧
    ( Handler.ctor registerHandler initialize_fn startup shutdown finalize priority manager).1
      = { d_initialize := initialize_fn, d_startup := startup, d_shutdown := shutdown,
          d_finalize := finalize, d_priority := priority } ∧
    ( Handler.ctor (fun h log => log ++ [h]) initialize_fn startup shutdown finalize priority
        registered).2
      = registered ++
          [( Handler.ctor (fun h log => log ++ [h]) initialize_fn startup shutdown finalize
            priority registered).1] :=
  ⟨rfl, rfl, rfl⟩

/-- C16 (priority). `getPriority` of a handler built by the constructor returns
the priority passed to the constructor, also after any sequence of calls of the
lifecycle and has-methods. -/
theorem C16_priority_kept {σ : Type} (registerHandler : Handler → σ → σ)
    (initialize_fn startup shutdown finalize : Option Callback) (priority : Nat) (manager : σ)
    (calls : List HandlerMethod) :
    ( Handler.ctor registerHandler initialize_fn startup shutdown finalize priority
        manager).1.getPriority.2 = priority ∧
    (( Handler.ctor registerHandler initialize_fn startup shutdown finalize priority
        manager).1.afterCalls calls).getPriority.2 = priority := by
  have hstep : ∀ (h : Handler) (m : HandlerMethod), h.afterCall m = h := by
    intro h m
    cases m
    · simp only [Handler.afterCall, Handler.initialize]
      split <;> rfl
    · simp only [Handler.afterCall, Handler.startup]
      split <;> rfl
    · simp only [Handler.afterCall, Handler.shutdown]
      split <;> rfl
    · simp only [Handler.afterCall, Handler.finalize]
      split <;> rfl
    all_goals rfl
  have hall : ∀ (ms : List HandlerMethod) (h : Handler), h.afterCalls ms = h := by
    intro ms
    induction ms with
    | nil => intro h; rfl
    | cons m ms ih =>
      intro h
      simp only [Handler.afterCalls, List.foldl_cons, hstep]
      exact ih h
  refine ⟨rfl, ?_⟩
  rw [hall]
  rfl

/-- C18 (user priorities). Every standard priority constant of
`StartupShutdownManager`, from `priorityArenaManager` to `priorityVariables`,
is strictly less than 127, the first of the priorities reserved for users. -/
theorem C18_standard_priorities_below_user_range :
    StartupShutdownManager.priorityArenaManager < 127 ∧
    StartupShutdownManager.priorityReferenceCounter < 127 ∧
    StartupShutdownManager.priorityLogger < 127 ∧
    StartupShutdownManager.priorityListElements < 127 ∧
    StartupShutdownManager.priorityList < 127 ∧
    StartupShutdownManager.priorityInputManager < 127 ∧
    StartupShutdownManager.priorityRestartManager < 127 ∧
    StartupShutdownManager.priorityVariableDatabase < 127 ∧
    StartupShutdownManager.priorityStatistician < 127 ∧
    StartupShutdownManager.priorityBoundaryLookupTable < 127 ∧
    StartupShutdownManager.priorityHierarchyDataOpsManager < 127 ∧
    StartupShutdownManager.priorityTimerManger < 127 ∧
    StartupShutdownManager.priorityTimers < 127 ∧
    StartupShutdownManager.priorityVariables < 127 ∧
    StartupShutdownManager.standardPriorities.all (fun p => decide (p < 127)) = true := by
  decide

/-- C20 (data lives on patch border). `dataLivesOnPatchBorder` returns true for
every edge data factory, every side data factory and every outerface variable,
whatever its state. -/
theorem C20_data_lives_on_patch_border {TYPE : Type} (e : EdgeDataFactory TYPE)
    (s : SideDataFactory TYPE) (v : OuterfaceVariable TYPE) :
    e.dataLivesOnPatchBorder = true ∧ s.dataLivesOnPatchBorder = true ∧
      v.dataLivesOnPatchBorder = true :=
  ⟨rfl, rfl, rfl⟩

/-- C17 (priority order). For every sequence of handlers with priorities in
`0 … 254`, registering them succeeds; startup and shutdown each call every
registered handler once; startup calls them in ascending order of priority and
shutdown in descending order; the callbacks invoked are the startup,
respectively shutdown, callbacks of the handlers in that order. -/
theorem C17_priority_order (hs : List Handler) (hp : ∀ h ∈ hs, h.d_priority < 255) :
    ∃ m, StartupShutdownManager.registerAll StartupShutdownManager.setupSingleton hs = some m ∧
      m.startupOrder.Perm hs ∧ m.shutdownOrder.Perm hs ∧
      m.startupOrder.Pairwise (fun a b => a.d_priority ≤ b.d_priority) ∧
      m.shutdownOrder.Pairwise (fun a b => b.d_priority ≤ a.d_priority) ∧
      m.startup = m.startupOrder.filterMap (fun h => h.d_startup) ∧
      m.shutdown = m.shutdownOrder.filterMap (fun h => h.d_shutdown) := by
  obtain ⟨m, h1, -, h3, h4⟩ := registerAll_spec hs StartupShutdownManager.setupSingleton
    (by simp [StartupShutdownManager.setupSingleton])
    (listsAt_replicate 0 _) hp
  have hempty : StartupShutdownManager.setupSingleton.s_manager_list.flatten = [] := by
    simp [StartupShutdownManager.setupSingleton]
  rw [hempty, List.nil_append] at h4
  exact ⟨m, h1, h4, (reverse_flatten_perm _).trans h4, listsAt_ascending _ 0 h3,
    listsAt_descending _ 0 h3, startup_callbacks _, shutdown_callbacks _⟩

/-- C17 at a concrete input: three handlers registered with priorities 150, 10
and 150. -/
theorem C17_priority_order_witness :
    ∃ m, StartupShutdownManager.registerAll StartupShutdownManager.setupSingleton
        sampleHandlers = some m ∧
      m.startupOrder.Perm sampleHandlers ∧ m.shutdownOrder.Perm sampleHandlers ∧
      m.startupOrder.Pairwise (fun a b => a.d_priority ≤ b.d_priority) ∧
      m.shutdownOrder.Pairwise (fun a b => b.d_priority ≤ a.d_priority) ∧
      m.startup = m.startupOrder.filterMap (fun h => h.d_startup) ∧
      m.shutdown = m.shutdownOrder.filterMap (fun h => h.d_shutdown) :=
  C17_priority_order sampleHandlers (by decide)

/-- C19 (GlobalId comparison is lexicographic). `==` holds iff owner ranks and
LocalIds are equal; `<` holds iff the owner rank is smaller, or the owner ranks
are equal and the LocalId is smaller; `!=` is the negation of `==`, `>` the
converse of `<`, `<=` the negation of `>`, `>=` the negation of `<`; and exactly
one of `a < b`, `a == b`, `a > b` holds. -/
theorem C19_globalid_lexicographic (a b : GlobalId) :
    (a.operator_eq b = true ↔
      a.d_owner_rank = b.d_owner_rank ∧ a.d_local_id = b.d_local_id) ∧
    (a.operator_lt b = true ↔
      a.d_owner_rank < b.d_owner_rank ∨
        (a.d_owner_rank = b.d_owner_rank ∧ a.d_local_id.d_value < b.d_local_id.d_value)) ∧
    a.operator_ne b = !a.operator_eq b ∧
    a.operator_gt b = b.operator_lt a ∧
    a.operator_le b = !a.operator_gt b ∧
    a.operator_ge b = !a.operator_lt b ∧
    ((a.operator_lt b = true ∧ a.operator_eq b = false ∧ a.operator_gt b = false) ∨
      (a.operator_lt b = false ∧ a.operator_eq b = true ∧ a.operator_gt b = false) ∨
      (a.operator_lt b = false ∧ a.operator_eq b = false ∧ a.operator_gt b = true)) := by
  obtain ⟨ra, ⟨la⟩⟩ := a
  obtain ⟨rb, ⟨lb⟩⟩ := b
  simp only [GlobalId.operator_eq, GlobalId.operator_lt, GlobalId.operator_ne,
    GlobalId.operator_gt, GlobalId.operator_le, GlobalId.operator_ge]
  rcases lt_trichotomy ra rb with hr | hr | hr
  · have h1 : ¬ ra = rb := by omega
    have h2 : ¬ rb = ra := by omega
    have h3 : ¬ ra > rb := by omega
    have h4 : ¬ rb < ra := by omega
    simp [hr, h1, h2, h3, h4]
  · subst hr
    rcases lt_trichotomy la lb with hl | hl | hl
    · have h1 : ¬ la = lb := by omega
      have h3 : ¬ la > lb := by omega
      have h4 : ¬ lb < la := by omega
      have h5 : la ≤ lb := by omega
      have h6 : ¬ la ≥ lb := by omega
      simp [hl, h1, h3, h4, h5, h6]
    · subst hl
      simp
    · have h1 : ¬ la = lb := by omega
      have h3 : ¬ la < lb := by omega
      have h5 : ¬ la ≤ lb := by omega
      have h6 : la ≥ lb := by omega
      have h7 : la > lb := hl
      simp [hl, h1, h3, h5, h6, h7]
  · have h1 : ¬ ra = rb := by omega
    have h2 : ¬ rb = ra := by omega
    have h3 : ¬ ra < rb := by omega
    have h4 : ra > rb := hr
    simp [hr, h1, h2, h3, h4]

/-- C11 (serialization round trip). For every load whose item count and payload
lengths fit the 4-byte fields of the wire format, deserializing the serialized
load succeeds and returns the same items, in particular the same multiset of
load items. -/
theorem C11_serialization_round_trip (ops : DoubleArith) (x : List LoadItem)
    (hulp : ∀ d, ops.ulpDistance d d = 0)
    (hn : x.length < 2 ^ 32) (hk : ∀ it ∈ x, it.payload.length < 2 ^ 32) :
    deserialize ops (serialize ops x) = .ok x ∧
    ∃ y, deserialize ops (serialize ops x) = .ok y ∧
      (Multiset.ofList y : Multiset LoadItem) = Multiset.ofList x :=
  ⟨deserialize_serialize ops x hulp hn hk, x, deserialize_serialize ops x hulp hn hk, rfl⟩

/-- C11 at a concrete input: a load of two items, one with a payload of three
bytes. -/
theorem C11_serialization_round_trip_witness :
    deserialize sampleArith (serialize sampleArith sampleItems) = .ok sampleItems ∧
    ∃ y, deserialize sampleArith (serialize sampleArith sampleItems) = .ok y ∧
      (Multiset.ofList y : Multiset LoadItem) = Multiset.ofList sampleItems :=
  C11_serialization_round_trip sampleArith sampleItems
    (by intro d; simp [sampleArith]) (by decide) (by decide)

/-- C21 (recording agrees with the surplus selectors).
`recordWorkTakenByOurHalf` raises `ourSurplus` by the amount and leaves
`farSurplus` unchanged; `recordWorkTakenByFarHalf` raises `farSurplus` by the
amount and leaves `ourSurplus` unchanged; each raises `getCombinedWork` by the
amount. -/
theorem C21_recording_and_surplus (g : CascadePartitionerGroup) (amount : ℚ) :
    (g.recordWorkTakenByOurHalf amount).ourSurplus = g.ourSurplus + amount ∧
    (g.recordWorkTakenByOurHalf amount).farSurplus = g.farSurplus ∧
    (g.recordWorkTakenByFarHalf amount).farSurplus = g.farSurplus + amount ∧
    (g.recordWorkTakenByFarHalf amount).ourSurplus = g.ourSurplus ∧
    (g.recordWorkTakenByOurHalf amount).getCombinedWork = g.getCombinedWork + amount ∧
    (g.recordWorkTakenByFarHalf amount).getCombinedWork = g.getCombinedWork + amount := by
  have hour : (g.recordWorkTakenByOurHalf amount).d_our_position = g.d_our_position := by
    unfold CascadePartitionerGroup.recordWorkTakenByOurHalf
    split <;> rfl
  have hfar : (g.recordWorkTakenByFarHalf amount).d_our_position = g.d_our_position := by
    unfold CascadePartitionerGroup.recordWorkTakenByFarHalf
    split <;> rfl
  simp only [CascadePartitionerGroup.ourSurplus, CascadePartitionerGroup.farSurplus,
    CascadePartitionerGroup.lowerSurplus, CascadePartitionerGroup.upperSurplus,
    CascadePartitionerGroup.getCombinedWork, hour, hfar]
  cases h : g.d_our_position
  · simp only [CascadePartitionerGroup.recordWorkTakenByOurHalf,
      CascadePartitionerGroup.recordWorkTakenByFarHalf, h, if_true, if_false, reduceCtorEq]
    exact ⟨by ring, trivial, by ring, trivial, by ring, by ring⟩
  · simp only [CascadePartitionerGroup.recordWorkTakenByOurHalf,
      CascadePartitionerGroup.recordWorkTakenByFarHalf, h, if_true, if_false, reduceCtorEq]
    exact ⟨by ring, trivial, by ring, trivial, by ring, by ring⟩

/-- C22 (frame of the recording operations). `recordWorkTakenByOurHalf` changes
only the work total of our half and `d_our_half_may_supply`;
`recordWorkTakenByFarHalf` changes only the work total of the far half and
`d_far_half_may_supply`. The work of the other half, the may-supply flag of the
other half, both capacities, the cycle number, the rank bounds, the contact and
`d_our_position` keep their values, as does every other member. -/
theorem C22_recording_frame (g : CascadePartitionerGroup) (amount : ℚ) :
    (g.recordWorkTakenByOurHalf amount =
      { g with
        d_lower_work :=
          if g.d_our_position = Position.Lower then g.d_lower_work + amount else g.d_lower_work
        d_upper_work :=
          if g.d_our_position = Position.Lower then g.d_upper_work else g.d_upper_work + amount
        d_our_half_may_supply := false }) ∧
    (g.recordWorkTakenByFarHalf amount =
      { g with
        d_lower_work :=
          if g.d_our_position = Position.Lower then g.d_lower_work else g.d_lower_work + amount
        d_upper_work :=
          if g.d_our_position = Position.Lower then g.d_upper_work + amount else g.d_upper_work
        d_far_half_may_supply := false }) ∧
    ((g.recordWorkTakenByOurHalf amount).workAt g.d_our_position.other
        = g.workAt g.d_our_position.other ∧
      (g.recordWorkTakenByOurHalf amount).d_far_half_may_supply = g.d_far_half_may_supply ∧
      (g.recordWorkTakenByOurHalf amount).d_lower_capacity = g.d_lower_capacity ∧
      (g.recordWorkTakenByOurHalf amount).d_upper_capacity = g.d_upper_capacity ∧
      (g.recordWorkTakenByOurHalf amount).d_cycle_num = g.d_cycle_num ∧
      (g.recordWorkTakenByOurHalf amount).d_first_lower_rank = g.d_first_lower_rank ∧
      (g.recordWorkTakenByOurHalf amount).d_first_upper_rank = g.d_first_upper_rank ∧
      (g.recordWorkTakenByOurHalf amount).d_end_rank = g.d_end_rank ∧
      (g.recordWorkTakenByOurHalf amount).d_contact = g.d_contact ∧
      (g.recordWorkTakenByOurHalf amount).d_our_position = g.d_our_position) ∧
    ((g.recordWorkTakenByFarHalf amount).workAt g.d_our_position
        = g.workAt g.d_our_position ∧
      (g.recordWorkTakenByFarHalf amount).d_our_half_may_supply = g.d_our_half_may_supply ∧
      (g.recordWorkTakenByFarHalf amount).d_lower_capacity = g.d_lower_capacity ∧
      (g.recordWorkTakenByFarHalf amount).d_upper_capacity = g.d_upper_capacity ∧
      (g.recordWorkTakenByFarHalf amount).d_cycle_num = g.d_cycle_num ∧
      (g.recordWorkTakenByFarHalf amount).d_first_lower_rank = g.d_first_lower_rank ∧
      (g.recordWorkTakenByFarHalf amount).d_first_upper_rank = g.d_first_upper_rank ∧
      (g.recordWorkTakenByFarHalf amount).d_end_rank = g.d_end_rank ∧
      (g.recordWorkTakenByFarHalf amount).d_contact = g.d_contact ∧
      (g.recordWorkTakenByFarHalf amount).d_our_position = g.d_our_position) := by
  cases h : g.d_our_position <;>
    simp [CascadePartitionerGroup.recordWorkTakenByOurHalf,
      CascadePartitionerGroup.recordWorkTakenByFarHalf, CascadePartitionerGroup.workAt,
      Position.other, h]
